import Mathlib

/-!
Verification of the signal-back backup codec (`types/backup.go`,
`types/schema.go`) against its natural-language specification.

The Go sources are shallowly embedded: Go byte slices become `List Nat`
(each element a byte value below 256), machine integers become `Nat` with
explicit reduction modulo `2 ^ 32` or `2 ^ 64` where Go overflow semantics
matter, and the stateful `BackupFile` object becomes explicit state
passing.  Calls into the Go standard library's cryptographic primitives
(SHA-512, HMAC-SHA-256, the AES block cipher, HKDF) are not code of this
repository; they are abstracted as fields of a `Crypto` parameter record,
and every theorem is universally quantified over them.
-/

set_option linter.unusedVariables false

namespace SignalBack

/-- Bytes are naturals; values are kept below 256 by construction at use sites. -/
abbrev Byte := Nat

/-- Abstract interface to the Go standard-library crypto primitives used by
`types/backup.go` (`crypto/sha512`, `crypto/hmac` + `crypto/sha256`,
`crypto/aes`, `golang.org/x/crypto/hkdf`).  These are library calls, not
repository code, so they are parameters of the embedding:
* `sha512 data` is the SHA-512 digest of `data`;
* `hmacSHA256 key data` is the HMAC-SHA-256 tag of `data` under `key`;
* `aesEncBlock key block` encrypts one 16-byte block under AES;
* `hkdfSHA256 ikm salt info n` is `n` bytes of HKDF-SHA-256 output. -/
structure Crypto where
  sha512 : List Byte → List Byte
  hmacSHA256 : List Byte → List Byte → List Byte
  aesEncBlock : List Byte → List Byte → List Byte
  hkdfSHA256 : List Byte → List Byte → List Byte → Nat → List Byte

/-- Whitespace predicate of Go's `unicode.IsSpace` restricted to the Latin-1
range (`'\t'`, `'\n'`, `'\v'`, `'\f'`, `'\r'`, `' '`, `U+0085`, `U+00A0`);
this is the set `strings.TrimSpace` strips for the byte range the backup
passwords use. -/
def goIsSpace (c : Char) : Bool :=
  c = ' ' || c = '\t' || c = '\n' || c = Char.ofNat 11 || c = Char.ofNat 12 ||
  c = '\r' || c = Char.ofNat 0x85 || c = Char.ofNat 0xA0

/-- Embedding of Go's `strings.TrimSpace`: drop whitespace from both ends. -/
def trimSpaceGo (s : List Char) : List Char :=
  ((s.dropWhile goIsSpace).reverse.dropWhile goIsSpace).reverse

/-- Embedding of `strings.Replace(s, " ", "", -1)`: delete every space. -/
def removeSpaces : List Char → List Char
  | [] => []
  | c :: rest => if c = ' ' then removeSpaces rest else c :: removeSpaces rest

/-- UTF-8 encoding of one scalar value (Go string bytes of a rune). -/
def utf8EncodeChar (c : Char) : List Byte :=
  let n := c.toNat
  if n < 0x80 then [n]
  else if n < 0x800 then [0xC0 + n / 0x40, 0x80 + n % 0x40]
  else if n < 0x10000 then [0xE0 + n / 0x1000, 0x80 + n / 0x40 % 0x40, 0x80 + n % 0x40]
  else [0xF0 + n / 0x40000, 0x80 + n / 0x1000 % 0x40, 0x80 + n / 0x40 % 0x40, 0x80 + n % 0x40]

/-- Byte string of a Go string value. -/
def utf8Bytes (s : List Char) : List Byte :=
  (s.map utf8EncodeChar).flatten

/-- The iterated-SHA-512 loop body of `backupKey` (`types/backup.go:338-343`).
`pending` is what has been written into the digest before this round begins
(the salt before round one, nothing afterwards since `digest.Reset()`);
each round writes `pending`, the running `h`, then the passphrase bytes,
finalises, and resets. -/
def iterateSHA512 (sha512 : List Byte → List Byte) (input : List Byte) :
    Nat → List Byte → List Byte → List Byte
  | 0, _, h => h
  | n + 1, pending, h => iterateSHA512 sha512 input n [] (sha512 (pending ++ h ++ input))

/-- Embedding of `backupKey` (`types/backup.go:329-346`): normalise the
passphrase with `strings.Replace(strings.TrimSpace(password), " ", "", -1)`,
seed the digest with the salt when it is non-nil, run 250,000 rounds, and
keep the first 32 bytes. -/
def backupKey (C : Crypto) (password : List Char) (salt : Option (List Byte)) : List Byte :=
  let input := utf8Bytes (removeSpaces (trimSpaceGo password))
  let seeded := match salt with
    | none => ([] : List Byte)
    | some s => s
  (iterateSHA512 C.sha512 input 250000 seeded input).take 32

/-- Embedding of `deriveSecrets` (`types/backup.go:348-360`): HKDF-SHA-256
with a salt of `sha256.Size = 32` zero bytes, reading 64 bytes of output. -/
def deriveSecrets (C : Crypto) (input info : List Byte) : List Byte :=
  C.hkdfSHA256 input (List.replicate 32 0) info 64

/-- Session keys as `NewBackupFile` computes them (`types/backup.go:91-94`):
`derived[:32]` is the cipher key and `derived[32:]` the MAC key, with
info string `"Backup Export"`. -/
def sessionKeys (C : Crypto) (password : List Char) (salt : Option (List Byte)) :
    List Byte × List Byte :=
  let key := backupKey C password salt
  let derived := deriveSecrets C key (utf8Bytes "Backup Export".toList)
  (derived.take 32, derived.drop 32)

/-- Passphrase normalisation as the spec words it (§4.1 step 1): trim
leading/trailing whitespace, then remove all interior space characters. -/
def specNormalize (password : List Char) : List Char :=
  (trimSpaceGo password).filter (fun c => c ≠ ' ')

/-- Plain iterated rounds as the spec words them: each round hashes the
previous digest followed by the normalised passphrase bytes. -/
def specIterRounds (sha512 : List Byte → List Byte) (input : List Byte) :
    Nat → List Byte → List Byte
  | 0, h => h
  | n + 1, h => specIterRounds sha512 input n (sha512 (h ++ input))

/-- Reference key-stretch definition following the spec's words (§4.1 step 2):
the digest is seeded with the salt, `h0` is the normalised passphrase, and
round one therefore hashes `salt ++ h0 ++ passphrase`; the remaining
249,999 rounds hash `h ++ passphrase`; the first 32 bytes of the final
digest are the backup key. -/
def specBackupKey (C : Crypto) (password : List Char) (salt : Option (List Byte)) : List Byte :=
  let input := utf8Bytes (specNormalize password)
  let h1 := C.sha512 (salt.getD [] ++ input ++ input)
  (specIterRounds C.sha512 input 249999 h1).take 32

/-- Reference expansion following the spec's words (§4.1 step 3): HKDF-SHA-256
with a 32-zero-byte salt and info `"Backup Export"`, 64 bytes of OKM split
into cipher key and MAC key. -/
def specSessionKeys (C : Crypto) (password : List Char) (salt : Option (List Byte)) :
    List Byte × List Byte :=
  let okm := C.hkdfSHA256 (specBackupKey C password salt)
    (List.replicate 32 0) (utf8Bytes "Backup Export".toList) 64
  (okm.take 32, okm.drop 32)

theorem removeSpaces_eq_filter (s : List Char) :
    removeSpaces s = s.filter (fun c => c ≠ ' ') := by
  induction s with
  | nil => rfl
  | cons c rest ih =>
    by_cases h : c = ' ' <;> simp [removeSpaces, h, ih, List.filter_cons]

theorem iterateSHA512_empty_pending (f : List Byte → List Byte) (input : List Byte)
    (n : Nat) (h : List Byte) :
    iterateSHA512 f input n [] h = specIterRounds f input n h := by
  induction n generalizing h with
  | zero => rfl
  | succ n ih => simp [iterateSHA512, specIterRounds, ih]

/-- C2: the key derivation implemented by `backupKey`/`deriveSecrets` equals
the reference definition written from the spec: trim-and-strip-space
normalisation, a SHA-512 digest seeded with the salt and iterated 250,000
times over (previous digest ++ passphrase), the first 32 bytes expanded by
HKDF-SHA-256 with a 32-zero-byte salt and info "Backup Export" into 64
bytes split into a 32-byte cipher key and a 32-byte MAC key. -/
theorem c2_key_derivation_matches_spec (C : Crypto) (password : List Char)
    (salt : Option (List Byte)) :
    sessionKeys C password salt = specSessionKeys C password salt := by
  have hkey : backupKey C password salt = specBackupKey C password salt := by
    unfold backupKey specBackupKey
    simp only [removeSpaces_eq_filter, specNormalize]
    have hseed : (match salt with | none => ([] : List Byte) | some s => s) = salt.getD [] := by
      cases salt <;> rfl
    rw [hseed]
    rw [show (250000 : Nat) = 249999 + 1 from rfl]
    rw [iterateSHA512]
    rw [iterateSHA512_empty_pending]
  unfold sessionKeys specSessionKeys deriveSecrets
  rw [hkey]

/-! ## Byte-order helpers (`types/backup.go:362-376`) -/

/-- Embedding of `bytesToUint32`: big-endian read of the first four bytes. -/
def bytesToUint32 (b : List Byte) : Nat :=
  b.getD 3 0 + b.getD 2 0 * 2 ^ 8 + b.getD 1 0 * 2 ^ 16 + b.getD 0 0 * 2 ^ 24

/-- Embedding of `uint32ToBytes`: write `val` big-endian into the first four
bytes of `b`, keeping the tail (the call sites pass the 16-byte IV). -/
def uint32ToBytes (b : List Byte) (val : Nat) : List Byte :=
  [val / 2 ^ 24 % 256, val / 2 ^ 16 % 256, val / 2 ^ 8 % 256, val % 256] ++ b.drop 4

/-! ## AES-CTR keystream (Go `crypto/cipher.NewCTR` semantics)

Go's CTR mode treats the whole 16-byte IV as a big-endian counter,
incremented once per block; successive `XORKeyStream` calls on one stream
continue consuming the same keystream.  The keystream is modelled as a
function of the absolute byte offset. -/

/-- Big-endian integer value of a byte string. -/
def beBytesToNat (b : List Byte) : Nat :=
  b.foldl (fun acc x => acc * 256 + x) 0

/-- Big-endian byte string of width `w` for `v`. -/
def natToBeBytes : Nat → Nat → List Byte
  | 0, _ => []
  | w + 1, v => natToBeBytes w (v / 256) ++ [v % 256]

/-- Byte `i` of the CTR keystream for `key` and initial counter block `iv`. -/
def ctrKeystreamByte (C : Crypto) (key iv : List Byte) (i : Nat) : Byte :=
  let block := (beBytesToNat iv + i / 16) % 2 ^ 128
  (C.aesEncBlock key (natToBeBytes 16 block)).getD (i % 16) 0

/-- XOR `data` against the keystream starting at absolute offset `off`
(`stream.XORKeyStream`); results are truncated to bytes as Go's byte
arithmetic is. -/
def xorKeyStream (ks : Nat → Byte) : Nat → List Byte → List Byte
  | _, [] => []
  | off, b :: rest => Nat.xor b (ks off) % 256 :: xorKeyStream ks (off + 1) rest

/-! ## Decoded messages

Modelled from the spec: the `signal` package (generated protocol-buffer
code) is not among the given sources; §4.7 of the spec lists the message
fields.  Only the fields the embedded code touches carry structure; blob
lengths are the `uint32` `length` fields the code reads via `GetLength`. -/

/-- Modelled from the spec: `Attachment{row_id, attachment_id?, length}`. -/
structure Attachment where
  rowId : Nat
  attachmentId : Option Nat
  length : Nat
deriving DecidableEq

/-- Modelled from the spec: `Avatar{recipient_id, length}`. -/
structure Avatar where
  recipientId : Nat
  length : Nat
deriving DecidableEq

/-- Modelled from the spec: `Sticker{row_id, length}`. -/
structure Sticker where
  rowId : Nat
  length : Nat
deriving DecidableEq

/-- Modelled from the spec: a parameter cell of `SqlStatement.Parameter`
with at most one of its optional fields populated.  The integer field is
the raw unsigned 64-bit pattern (`Backups.proto` declares it `uint64`);
the double field is carried as its opaque 64-bit pattern, since the code
never computes with it. -/
structure SqlParameter where
  stringParameter : Option (List Char)
  integerParameter : Option Nat
  doubleParameter : Option Nat
  blobParameter : Option (List Byte)
  nullParameter : Option Bool
deriving DecidableEq

/-- Modelled from the spec: `SqlStatement{statement, parameters[]}`. -/
structure SqlStatement where
  statement : Option (List Char)
  parameters : List SqlParameter
deriving DecidableEq

/-- Modelled from the spec: `SharedPreference{file, key, value, ...}`. -/
structure SharedPreference where
  file : Option (List Char)
  key : Option (List Char)
  value : Option (List Char)
deriving DecidableEq

/-- Modelled from the spec: `KeyValue{key, ...}` with one value field set. -/
structure KeyValue where
  key : Option (List Char)
  stringValue : Option (List Char)
  integerValue : Option Nat
  booleanValue : Option Bool
  blobValue : Option (List Byte)
deriving DecidableEq

/-- Modelled from the spec: `Header{version?, iv, salt}`. -/
structure HeaderMsg where
  version : Option Nat
  iv : List Byte
  salt : Option (List Byte)
deriving DecidableEq

/-- Modelled from the spec: the decoded `signal.BackupFrame`, a record of
optional payloads (`GetAttachment` etc. return the field pointers). -/
structure BackupFrame where
  header : Option HeaderMsg
  statement : Option SqlStatement
  preference : Option SharedPreference
  keyValue : Option KeyValue
  attachment : Option Attachment
  version : Option Nat
  endFlag : Option Bool
  avatar : Option Avatar
  sticker : Option Sticker
deriving DecidableEq

/-- The zero value `new(signal.BackupFrame)`: every field unset. -/
def emptyBackupFrame : BackupFrame :=
  ⟨none, none, none, none, none, none, none, none, none⟩

/-- Result of `proto.Unmarshal` into a fresh `BackupFrame`: the message
contents it leaves behind (possibly partial) and its success flag
(`.2 = false` when `Unmarshal` returned an error). -/
abbrev Unmarshal := List Byte → BackupFrame × Bool

/-! ## The `BackupFile` state (`types/backup.go:39-48`)

The open `*os.File` becomes the byte list `fileData` plus a cursor `pos`;
the running `hmac.New(sha256, macKey)` state is the list of bytes written
since the last `Reset`. -/

/-- State of a `BackupFile` between operations. -/
structure BackupState where
  fileData : List Byte
  pos : Nat
  cipherKey : List Byte
  macKey : List Byte
  macWritten : List Byte
  iv : List Byte
  counter : Nat
deriving DecidableEq

/-- Read up to `n` bytes at the cursor, advancing it by what was read
(the shared semantics of `io.ReadFull` / `file.Read` on a regular file:
bytes until `n` or end of file). -/
def readBytes (s : BackupState) (n : Nat) : List Byte × BackupState :=
  let got := (s.fileData.drop s.pos).take n
  (got, { s with pos := s.pos + got.length })

/-- Errors the embedded functions return (`error` values in Go). -/
inductive BErr where
  | eof
  | unexpectedEOF
  | wrongPassword
  | badCipher
  | readAttachmentFailed
  | writeFailed
  | wrap (tag : List Char) (e : BErr)
deriving DecidableEq

/-- Outcome of `BackupFile.Frame`: a decoded frame, an error, or the panic
on the negative slice bound `frame[len(frame)-10:]` when the declared
length is below 10.  Each carries the `BackupFile` state as the method
left it. -/
inductive FrameOut where
  | ok (frameLength : Nat) (decoded : BackupFrame) (s : BackupState)
  | err (e : BErr) (s : BackupState)
  | panicked (s : BackupState)
deriving DecidableEq

/-- Embedding of `BackupFile.Frame` (`types/backup.go:109-149`).
Faithful to the source:
* the first `io.ReadFull` error is returned (`io.EOF` when nothing was
  read, `io.ErrUnexpectedEOF` on a partial length prefix);
* the second `io.ReadFull`'s error is discarded on line 119, leaving the
  unread tail of the `make([]byte, frameLength)` buffer zero-initialised;
* the MAC is checked before the counter is touched or anything is
  decrypted;
* the `proto.Unmarshal` error is discarded on line 146. -/
def Frame (C : Crypto) (um : Unmarshal) (s : BackupState) : FrameOut :=
  let (lengthBytes, s1) := readBytes s 4
  if lengthBytes.length < 4 then
    .err (if lengthBytes.length = 0 then .eof else .unexpectedEOF) s1
  else
    let frameLength := bytesToUint32 lengthBytes
    let (got, s2) := readBytes s1 frameLength
    let frame := got ++ List.replicate (frameLength - got.length) 0
    if frame.length < 10 then .panicked s2
    else
      let messageLength := frame.length - 10
      let theirMac := frame.drop messageLength
      let macInput := frame.take messageLength
      let s3 := { s2 with macWritten := macInput }
      let ourMac := (C.hmacSHA256 s3.macKey macInput).take 10
      if theirMac ≠ ourMac then .err .wrongPassword s3
      else
        let iv2 := uint32ToBytes s3.iv s3.counter
        let s4 := { s3 with iv := iv2, counter := (s3.counter + 1) % 2 ^ 32 }
        if ¬ (s4.cipherKey.length = 16 ∨ s4.cipherKey.length = 24 ∨ s4.cipherKey.length = 32)
        then .err .badCipher s4
        else
          let output := xorKeyStream (ctrKeystreamByte C s4.cipherKey iv2) 0 macInput
          .ok frameLength (um output).1 s4

/-! ## `BackupFile.DecryptAttachment` (`types/backup.go:151-211`) -/

/-- Size of the streaming buffer (`types/backup.go:27`). -/
def ATTACHMENT_BUFFER_SIZE : Nat := 8192

/-- Outcome of `DecryptAttachment`: the updated state plus the sequence of
`out.Write` calls (one plaintext chunk per call), or the error, again with
the state as the method left it. -/
inductive AttachOut where
  | ok (s : BackupState) (written : List (List Byte))
  | err (e : BErr) (s : BackupState)
deriving DecidableEq

/-- The `for length > 0` loop of `DecryptAttachment`
(`types/backup.go:180-199`).  `buf` is the current reusable read buffer
(fresh 8,192 zero bytes on entry; shrunk to `remaining` once
`remaining < 8192`); `off` is the number of keystream bytes the CTR stream
has already consumed; `chunks` are the `out.Write` payloads so far.
Faithful to the source: a short `file.Read` leaves stale bytes in the tail
of `buf`, and the whole buffer — not just the `n` fresh bytes — is fed to
the MAC, XOR-decrypted and written out, while only `n` is subtracted from
`remaining`.  The proof argument `hbuf` records that the buffer still has
its allocated size while `remaining ≥ 8192`; it makes the `file.Read` of a
non-empty buffer return at least one byte, which is what bounds the
recursion. -/
def attachRead (C : Crypto) (key iv2 : List Byte)
    (remaining : Nat) (buf : List Byte)
    (hbuf : ATTACHMENT_BUFFER_SIZE ≤ remaining → buf.length = ATTACHMENT_BUFFER_SIZE)
    (off : Nat) (s : BackupState) (chunks : List (List Byte)) : AttachOut :=
  if h0 : remaining = 0 then .ok s chunks
  else
    let b := if remaining < ATTACHMENT_BUFFER_SIZE
             then List.replicate remaining 0 else buf
    have hb : 1 ≤ b.length := by
      show 1 ≤ (if remaining < ATTACHMENT_BUFFER_SIZE
                then List.replicate remaining 0 else buf).length
      by_cases h8 : remaining < ATTACHMENT_BUFFER_SIZE
      · rw [if_pos h8, List.length_replicate]
        omega
      · rw [if_neg h8, hbuf (not_lt.mp h8)]
        decide
    if ha : s.fileData.length - s.pos = 0 then .err .readAttachmentFailed s
    else
      let n := min b.length (s.fileData.length - s.pos)
      have hn : 1 ≤ n := le_min hb (Nat.one_le_iff_ne_zero.mpr ha)
      let chunk := (s.fileData.drop s.pos).take n
      let b2 := chunk ++ b.drop n
      have hb2 : b2.length = b.length := by
        show ((s.fileData.drop s.pos).take n ++ b.drop n).length = b.length
        have hna : n ≤ s.fileData.length - s.pos := min_le_right _ _
        have hnb : n ≤ b.length := min_le_left _ _
        rw [List.length_append, List.length_take, List.length_drop, List.length_drop]
        omega
      let s2 := { s with pos := s.pos + n, macWritten := s.macWritten ++ b2 }
      let output := xorKeyStream (ctrKeystreamByte C key iv2) off b2
      attachRead C key iv2 (remaining - n) b2
        (fun hle => by
          have hA : ATTACHMENT_BUFFER_SIZE ≤ remaining := le_trans hle (Nat.sub_le _ _)
          rw [hb2]
          show (if remaining < ATTACHMENT_BUFFER_SIZE
                then List.replicate remaining 0 else buf).length = ATTACHMENT_BUFFER_SIZE
          rw [if_neg (not_lt.mpr hA)]
          exact hbuf hA)
        (off + b2.length) s2 (chunks ++ [output])
termination_by remaining
decreasing_by exact Nat.sub_lt (Nat.pos_of_ne_zero h0) hn

/-- Embedding of `BackupFile.DecryptAttachment` (`types/backup.go:153-211`).
`length` is the `uint32` parameter (reduced modulo `2 ^ 32`); `hasSink`
is whether `out` is non-nil.  Faithful to the source:
* the IV is rewritten and the counter incremented before anything else;
* with a nil sink the file is seeked forward by the `uint32` value
  `length + 10` and nothing else happens (the `Seek` on an open regular
  file succeeds);
* otherwise the MAC is reset and fed the 16-byte IV, the loop streams the
  blob, and the trailing 10-byte tag is read with an ignored
  `io.ReadFull` error (line 202), zero-filling any unread tail. -/
def DecryptAttachment (C : Crypto) (s : BackupState) (length : Nat) (hasSink : Bool) :
    AttachOut :=
  let len32 := length % 2 ^ 32
  let iv2 := uint32ToBytes s.iv s.counter
  let s1 := { s with iv := iv2, counter := (s.counter + 1) % 2 ^ 32 }
  if ¬ hasSink then
    .ok { s1 with pos := s1.pos + (len32 + 10) % 2 ^ 32 } []
  else if ¬ (s1.cipherKey.length = 16 ∨ s1.cipherKey.length = 24 ∨ s1.cipherKey.length = 32)
  then .err .badCipher s1
  else
    let s2 := { s1 with macWritten := iv2 }
    match attachRead C s1.cipherKey iv2 len32
        (List.replicate ATTACHMENT_BUFFER_SIZE 0) (fun _ => by simp) 0 s2 [] with
    | .err e s3 => .err e s3
    | .ok s3 chunks =>
      let (got, s4) := readBytes s3 10
      let theirMac := got ++ List.replicate (10 - got.length) 0
      let ourMac := (C.hmacSHA256 s4.macKey s4.macWritten).take 10
      if theirMac ≠ ourMac then .err .wrongPassword s4
      else .ok s4 chunks

/-! ## `BackupFile.Consume` (`types/backup.go:213-323`) -/

/-- A consumer callback outcome: the state after the callback (callbacks
capture `bf` and may mutate it) and its returned error, if any. -/
abbrev CbResult := BackupState × Option BErr

/-- The callback set (`ConsumeFuncs`, `types/backup.go:214-222`); each Go
`func` field becomes an optional state transformer. -/
structure ConsumeFuncs where
  FrameFunc : Option (BackupFrame → Nat → Nat → BackupState → CbResult)
  AttachmentFunc : Option (Attachment → BackupState → CbResult)
  AvatarFunc : Option (Avatar → BackupState → CbResult)
  StickerFunc : Option (Sticker → BackupState → CbResult)
  PreferenceFunc : Option (SharedPreference → BackupState → CbResult)
  KeyValueFunc : Option (KeyValue → BackupState → CbResult)
  StatementFunc : Option (SqlStatement → BackupState → CbResult)

/-- The callback set with every handler unset. -/
def noFuncs : ConsumeFuncs :=
  ⟨none, none, none, none, none, none, none⟩

/-- The default blob handler Consume installs for an unset
attachment/avatar/sticker consumer: `bf.DecryptAttachment(a.GetLength(), nil)`
(`types/backup.go:243-257`). -/
def defaultBlobCall (C : Crypto) (len : Nat) (st : BackupState) : CbResult :=
  match DecryptAttachment C st len false with
  | .ok s2 _ => (s2, none)
  | .err e s2 => (s2, some e)

/-- The defaulting prologue of `Consume` (`types/backup.go:242-257`):
"frame attachments MUST be handled, even if discarded". -/
def withDefaults (C : Crypto) (fns : ConsumeFuncs) : ConsumeFuncs :=
  { fns with
    AttachmentFunc :=
      some (fns.AttachmentFunc.getD (fun a st => defaultBlobCall C a.length st)),
    AvatarFunc :=
      some (fns.AvatarFunc.getD (fun a st => defaultBlobCall C a.length st)),
    StickerFunc :=
      some (fns.StickerFunc.getD (fun a st => defaultBlobCall C a.length st)) }

/-- Outcome of the `Consume` iteration; `outOfFuel` is the artefact of the
bounded embedding of the unbounded `for` loop and corresponds to no Go
behaviour. -/
inductive ConsumeOut where
  | ok (s : BackupState)
  | err (e : BErr) (s : BackupState)
  | panicked (s : BackupState)
  | outOfFuel (s : BackupState)

/-- Run one optional tag-specific consumer on its optional payload, wrapping
a callback error with the frame kind (`errors.Wrap(err, tag)`). -/
def cbStep {α : Type} (tag : List Char) (fn : Option (α → BackupState → CbResult))
    (data : Option α) (st : BackupState) : CbResult :=
  match fn, data with
  | some f, some d =>
    match f d st with
    | (st2, some e) => (st2, some (.wrap tag e))
    | (st2, none) => (st2, none)
  | _, _ => (st, none)

/-- Sequence a callback result into the rest of the loop body: a callback
error terminates `Consume` with that error. -/
def seqCb (r : CbResult) (k : BackupState → ConsumeOut) : ConsumeOut :=
  match r with
  | (st, some e) => .err e st
  | (st, none) => k st

/-- The `for` loop of `Consume` (`types/backup.go:259-320`), with the
handlers already defaulted.  Each iteration records the current offset,
reads one frame (`io.EOF` breaks the loop; any other error is returned),
runs `FrameFunc`, then the tag-specific consumers in source order. -/
def consumeLoop (C : Crypto) (um : Unmarshal) (fns : ConsumeFuncs) :
    Nat → BackupState → ConsumeOut
  | 0, s => .outOfFuel s
  | fuel + 1, s =>
    let pos := s.pos
    match Frame C um s with
    | .panicked s1 => .panicked s1
    | .err e s1 => if e = .eof then .ok s1 else .err e s1
    | .ok frameLength f s1 =>
      seqCb (cbStep "consume [frame]".toList
          (fns.FrameFunc.map (fun fn => fun (_ : Unit) st => fn f pos frameLength st))
          (some ()) s1) fun st1 =>
      seqCb (cbStep "consume [attachment]".toList fns.AttachmentFunc f.attachment st1) fun st2 =>
      seqCb (cbStep "consume [avatar]".toList fns.AvatarFunc f.avatar st2) fun st3 =>
      seqCb (cbStep "consume [sticker]".toList fns.StickerFunc f.sticker st3) fun st4 =>
      seqCb (cbStep "consume [preference]".toList fns.PreferenceFunc f.preference st4) fun st5 =>
      seqCb (cbStep "consume [keyvalue]".toList fns.KeyValueFunc f.keyValue st5) fun st6 =>
      seqCb (cbStep "consume [statement]".toList fns.StatementFunc f.statement st6) fun st7 =>
      consumeLoop C um fns fuel st7

/-- Embedding of `BackupFile.Consume` (`types/backup.go:232-323`): install
the default discarding handlers for unset blob consumers, then iterate.
(`defer bf.Close()` releases the OS file handle; the byte list carries no
handle, so closing is not represented.) -/
def Consume (C : Crypto) (um : Unmarshal) (fns : ConsumeFuncs) (fuel : Nat)
    (s : BackupState) : ConsumeOut :=
  consumeLoop C um (withDefaults C fns) fuel s

/-! ## Go string helpers used by `types/schema.go` -/

/-- Embedding of `strings.Split(s, sep)` for a one-character separator:
split at every occurrence; the result is never empty (`Split("", ",") = [""]`). -/
def splitOnChar (sep : Char) : List Char → List (List Char)
  | [] => [[]]
  | c :: rest =>
    if c = sep then [] :: splitOnChar sep rest
    else
      match splitOnChar sep rest with
      | [] => [[c]]
      | g :: gs => (c :: g) :: gs

/-- Break a string at the first occurrence of `sep` (helper for `SplitN`). -/
def splitFirst (sep : Char) : List Char → Option (List Char × List Char)
  | [] => none
  | c :: rest =>
    if c = sep then some ([], rest)
    else
      match splitFirst sep rest with
      | none => none
      | some (a, b) => some (c :: a, b)

/-- Embedding of `strings.SplitN(s, sep, n)` for a one-character separator:
at most `n` parts, the last keeping the unsplit remainder. -/
def splitNChar (sep : Char) : Nat → List Char → List (List Char)
  | 0, _ => []
  | 1, s => [s]
  | n + 2, s =>
    match splitFirst sep s with
    | none => [s]
    | some (a, b) => a :: splitNChar sep (n + 1) b

/-- Embedding of `Unwrap` (`multiwriter.go`): remove a delimiter pair such
as `()` wrapping the whole string, when the string is longer than 2. -/
def Unwrap (s delim : List Char) : List Char :=
  if 2 < s.length ∧ s.headD ' ' = delim.getD 0 ' ' ∧ s.getLastD ' ' = delim.getD 1 ' '
  then (s.drop 1).dropLast
  else s

/-! ## Schema binder (`types/schema.go`) -/

/-- Column affinity (`ColumnType`, `types/schema.go:9-17`). -/
inductive ColumnType where
  | CT_None
  | CT_Text
  | CT_Integer
  | CT_Real
  | CT_Blob
deriving DecidableEq

/-- Embedding of `columnTypeFromString` (`types/schema.go:19-27`). -/
def columnTypeFromString (s : List Char) : ColumnType :=
  if s = "TEXT".toList then .CT_Text
  else if s = "INTEGER".toList then .CT_Integer
  else if s = "REAL".toList then .CT_Real
  else if s = "BLOB".toList then .CT_Blob
  else .CT_None

/-- A Go `map[string]int` as an association list: assignment overwrites an
existing key and otherwise appends. -/
def mapInsert (m : List (List Char × Nat)) (k : List Char) (v : Nat) :
    List (List Char × Nat) :=
  if m.any (fun p => p.1 == k) then m.map (fun p => if p.1 == k then (k, v) else p)
  else m ++ [(k, v)]

/-- Lookup in the association-list map. -/
def mapLookup (m : List (List Char × Nat)) (k : List Char) : Option Nat :=
  (m.find? (fun p => p.1 == k)).map (fun p => p.2)

/-- The `Schema` record (`types/schema.go:29-32`); the Go field `Type` is
spelled `Typ` because `Type` is reserved in Lean. -/
structure Schema where
  Index : List (List Char × Nat)
  Typ : List ColumnType
deriving DecidableEq

/-- The name token of a column-list fragment: first part of
`strings.SplitN(strings.TrimSpace(desc), " ", 3)`. -/
def nameOf (desc : List Char) : List Char :=
  (splitNChar ' ' 3 (trimSpaceGo desc)).headD []

/-- The `for i, desc := range cols` loop of `NewSchema`
(`types/schema.go:46-73`): `i` is the raw fragment index, `j` counts the
skipped directive fragments that did not contain `)`, `inParen` is the
open-parenthesis flag.  A fragment whose name token contains `(` turns the
flag on; while the flag is on, fragments are skipped (the one containing
`)` turns it off, the others increment `j`).  Otherwise the name is mapped
to `i - j` and, when a second token exists, `Type[i]` (raw index `i`, not
`i - j`) is set from it. -/
def schemaLoop : List (List Char) → Nat → Nat → Bool →
    List (List Char × Nat) → List ColumnType → List (List Char × Nat) × List ColumnType
  | [], _, _, _, idx, typ => (idx, typ)
  | desc :: rest, i, j, inParen, idx, typ =>
    let trimmed := trimSpaceGo desc
    let parts := splitNChar ' ' 3 trimmed
    let name := parts.headD []
    let inParen1 := if name.contains '(' then true else inParen
    if inParen1 then
      if name.contains ')' then schemaLoop rest (i + 1) j false idx typ
      else schemaLoop rest (i + 1) (j + 1) true idx typ
    else
      let idx2 := mapInsert idx name (i - j)
      let typ2 := if 1 < parts.length
                  then typ.set i (columnTypeFromString (parts.getD 1 []))
                  else typ
      schemaLoop rest (i + 1) j inParen1 idx2 typ2

/-- Embedding of `NewSchema` (`types/schema.go:34-75`): strip the outer
parentheses, split at every comma, and fold the fragment loop over a
`Type` array pre-allocated to one `CT_None` per fragment. -/
def NewSchema (statement_params : List Char) : Schema :=
  let cols := splitOnChar ',' (Unwrap statement_params "()".toList)
  let r := schemaLoop cols 0 0 false [] (List.replicate cols.length .CT_None)
  ⟨r.1, r.2⟩

/-! ## Parameter binding (`types/schema.go:99-132`) -/

/-- Embedding of `signed` (`types/schema.go:99-105`): reinterpret the
unsigned 64-bit pattern as a signed 64-bit value (`int64(*u)`), keeping a
nil pointer nil. -/
def signed (u : Option Nat) : Option Int :=
  u.map (fun v => if v % 2 ^ 64 < 2 ^ 63 then ((v % 2 ^ 64 : Nat) : Int)
                  else ((v % 2 ^ 64 : Nat) : Int) - 2 ^ 64)

/-- The `interface{}` value `ParameterValue` returns: each constructor is a
typed Go pointer (`none` inside a constructor is that type's nil pointer),
and `untypedNil` is the plain `nil` interface of the final `return`. -/
inductive BoundValue where
  | str (v : Option (List Char))
  | int (v : Option Int)
  | real (v : Option Nat)
  | blob (v : Option (List Byte))
  | untypedNil
deriving DecidableEq

/-- Embedding of `ParameterValue` (`types/schema.go:107-132`): probe the
cell's fields in the order string, integer, double, blob; when none is
populated, return the typed nil selected by the column affinity, or the
plain nil interface for `CT_None`. -/
def ParameterValue (p : SqlParameter) (typ : ColumnType) : BoundValue :=
  if p.stringParameter.isSome then .str p.stringParameter
  else if p.integerParameter.isSome then .int (signed p.integerParameter)
  else if p.doubleParameter.isSome then .real p.doubleParameter
  else if p.blobParameter.isSome then .blob p.blobParameter
  else
    match typ with
    | .CT_Text => .str p.stringParameter
    | .CT_Integer => .int (signed p.integerParameter)
    | .CT_Real => .real p.doubleParameter
    | .CT_Blob => .blob p.blobParameter
    | .CT_None => .untypedNil

/-! ## Basic lemmas about the byte helpers -/

theorem natToBeBytes_length (w v : Nat) : (natToBeBytes w v).length = w := by
  induction w generalizing v with
  | zero => rfl
  | succ w ih => simp [natToBeBytes, ih]

theorem natToBeBytes_four (v : Nat) :
    natToBeBytes 4 v =
      [v / 256 / 256 / 256 % 256, v / 256 / 256 % 256, v / 256 % 256, v % 256] := rfl

theorem bytesToUint32_natToBeBytes (v : Nat) (hv : v < 2 ^ 32) :
    bytesToUint32 (natToBeBytes 4 v) = v := by
  rw [natToBeBytes_four]
  show v % 256 + v / 256 % 256 * 2 ^ 8 + v / 256 / 256 % 256 * 2 ^ 16 +
    v / 256 / 256 / 256 % 256 * 2 ^ 24 = v
  omega

theorem bytesToUint32_uint32ToBytes (b : List Byte) (v : Nat) :
    bytesToUint32 (uint32ToBytes b v) = v % 2 ^ 32 := by
  show v % 256 + v / 2 ^ 8 % 256 * 2 ^ 8 + v / 2 ^ 16 % 256 * 2 ^ 16 +
    v / 2 ^ 24 % 256 * 2 ^ 24 = v % 2 ^ 32
  omega

theorem xorKeyStream_length (ks : Nat → Byte) (off : Nat) (data : List Byte) :
    (xorKeyStream ks off data).length = data.length := by
  induction data generalizing off with
  | nil => rfl
  | cons b rest ih => simp [xorKeyStream, ih]

theorem xorKeyStream_append (ks : Nat → Byte) (off : Nat) (a b : List Byte) :
    xorKeyStream ks off (a ++ b) =
      xorKeyStream ks off a ++ xorKeyStream ks (off + a.length) b := by
  induction a generalizing off with
  | nil => simp [xorKeyStream]
  | cons x rest ih =>
    simp only [List.cons_append, xorKeyStream, List.length_cons, List.append_eq]
    rw [ih]
    have h : off + 1 + rest.length = off + (rest.length + 1) := by omega
    rw [h]

/-! ## C10: declared frame length below 10 -/

/-- C10: when the 4-byte prefix of the next frame decodes to a length `L`
below 10, `Frame` neither returns a decoded frame nor an error: the
split `frame[len(frame)-10:]` has a negative bound and the call aborts
(the `panicked` outcome), with no guard preceding the indexing. -/
theorem c10_short_declared_length_panics (C : Crypto) (um : Unmarshal)
    (s : BackupState) (L : Nat)
    (hpre : (s.fileData.drop s.pos).take 4 = natToBeBytes 4 L) (hL : L < 10) :
    ∃ s', Frame C um s = .panicked s' := by
  have hL32 : L < 2 ^ 32 := lt_trans hL (by norm_num)
  unfold Frame
  simp only [readBytes]
  simp only [hpre, natToBeBytes_length, bytesToUint32_natToBeBytes L hL32]
  rw [if_neg (by omega)]
  rw [if_pos]
  · exact ⟨_, rfl⟩
  · have hgot := List.length_take_le L (s.fileData.drop (s.pos + 4))
    rw [List.length_append, List.length_replicate]
    omega

/-- Closed instance for `c10_short_declared_length_panics`: a file whose
next frame declares length 3. -/
theorem c10_witness :
    ∃ s', Frame ⟨fun _ => [], fun _ _ => [], fun _ _ => [], fun _ _ _ _ => []⟩
      (fun _ => (emptyBackupFrame, true))
      ⟨[0, 0, 0, 3, 9, 9, 9], 0, List.replicate 32 0, [], [], List.replicate 16 0, 0⟩
      = .panicked s' :=
  c10_short_declared_length_panics _ _ _ 3 (by decide) (by decide)

/-! ## C6: truncated frame bodies -/

/-- A fixed crypto instance whose HMAC is the constant byte 7, used to
evaluate the embedded code on concrete inputs. -/
def c6Crypto : Crypto :=
  ⟨fun _ => List.replicate 64 7, fun _ _ => List.replicate 32 7,
   fun _ _ => List.replicate 16 7, fun _ _ _ n => List.replicate n 7⟩

/-- An `Unmarshal` that always succeeds with the empty frame. -/
def okUnmarshal : Unmarshal := fun _ => (emptyBackupFrame, true)

/-- A backup state whose file declares a 20-byte frame but holds only 5
more bytes. -/
def c6State : BackupState :=
  ⟨[0, 0, 0, 20, 1, 2, 3, 4, 5], 0, List.replicate 32 0, List.replicate 32 0, [],
   List.replicate 16 0, 0⟩

/-- C6 (code bug): on a file truncated in the middle of a declared 20-byte
frame, `Frame` does not fail with a truncation error.  Line 119 of
`types/backup.go` discards the `io.ReadFull` error, so the missing tail of
the frame buffer stays zero and the call falls through to the MAC
comparison, failing with the wrong-password (integrity) error instead —
the error type `BErr` of the embedded code has no truncation case at all. -/
theorem c6_truncated_frame_reports_mac_failure :
    Frame c6Crypto okUnmarshal c6State =
      .err .wrongPassword
        { c6State with pos := 9, macWritten := [1, 2, 3, 4, 5, 0, 0, 0, 0, 0] } := by
  decide

/-! ## C7: discarded wire-format parse errors -/

/-- A fixed crypto instance whose primitives return constant zero bytes. -/
def c7Crypto : Crypto :=
  ⟨fun _ => List.replicate 64 0, fun _ _ => List.replicate 32 0,
   fun _ _ => List.replicate 16 0, fun _ _ _ n => List.replicate n 0⟩

/-- An `Unmarshal` that always fails, leaving the fresh empty message. -/
def failUnmarshal : Unmarshal := fun _ => (emptyBackupFrame, false)

/-- A backup state whose next frame is a valid 10-byte unit under
`c7Crypto` (empty ciphertext body, matching all-zero tag). -/
def c7State : BackupState :=
  ⟨[0, 0, 0, 10, 0, 0, 0, 0, 0, 0, 0, 0, 0, 0], 0, List.replicate 32 0,
   List.replicate 32 0, [], List.replicate 16 0, 0⟩

/-- C7 (code bug): a MAC-verified frame whose decrypted body fails to
parse is returned as a successful empty frame.  Line 146 of
`types/backup.go` discards the `proto.Unmarshal` error: here the
unmarshaller rejects every input (`failUnmarshal`), yet `Frame` returns
`ok` with the empty frame instead of a decode-failure error. -/
theorem c7_parse_failure_returned_as_success :
    (failUnmarshal []).2 = false ∧
    Frame c7Crypto failUnmarshal c7State =
      .ok 10 emptyBackupFrame
        { c7State with pos := 14, macWritten := [], iv := List.replicate 16 0,
                       counter := 1 } := by
  constructor
  · rfl
  · decide

/-! ## C1: frame integrity before decryption -/

/-- C1: on a file whose next unit is a complete frame of declared length
`L ≥ 10` (body of `L - 10` bytes, then a 10-byte tag), `Frame` MACs exactly
the body with the session MAC key and compares the first 10 HMAC bytes to
the tag.  On mismatch it returns the integrity error with no decoded frame
and the counter untouched; only on a match does it rewrite the IV,
advance the counter, AES-CTR-decrypt the body and return the decoded
frame. -/
theorem c1_frame_mac_gates_decryption (C : Crypto) (um : Unmarshal)
    (s : BackupState) (L : Nat) (body tag rest : List Byte)
    (hfile : s.fileData.drop s.pos = natToBeBytes 4 L ++ (body ++ (tag ++ rest)))
    (hL32 : L < 2 ^ 32) (hL10 : 10 ≤ L)
    (hbody : body.length = L - 10) (htag : tag.length = 10)
    (hkey : s.cipherKey.length = 32) :
    (tag ≠ (C.hmacSHA256 s.macKey body).take 10 →
      Frame C um s = .err .wrongPassword
        { s with pos := s.pos + 4 + L, macWritten := body }) ∧
    (tag = (C.hmacSHA256 s.macKey body).take 10 →
      Frame C um s = .ok L
        (um (xorKeyStream (ctrKeystreamByte C s.cipherKey (uint32ToBytes s.iv s.counter))
          0 body)).1
        { s with pos := s.pos + 4 + L, macWritten := body,
                 iv := uint32ToBytes s.iv s.counter,
                 counter := (s.counter + 1) % 2 ^ 32 }) := by
  have hlen4 := natToBeBytes_length 4 L
  have htake4 : (s.fileData.drop s.pos).take 4 = natToBeBytes 4 L := by
    rw [hfile]
    exact List.take_left' hlen4
  have hdrop4 : s.fileData.drop (s.pos + 4) = body ++ (tag ++ rest) := by
    calc s.fileData.drop (s.pos + 4) = (s.fileData.drop s.pos).drop 4 := by
          rw [List.drop_drop, Nat.add_comm]
      _ = body ++ (tag ++ rest) := by
          rw [hfile]
          exact List.drop_left' hlen4
  have hbt_len : (body ++ tag).length = L := by
    rw [List.length_append, hbody, htag]
    omega
  have htakeL : (body ++ (tag ++ rest)).take L = body ++ tag := by
    rw [← List.append_assoc]
    exact List.take_left' hbt_len
  have htakeBody : (body ++ tag).take (L - 10) = body := List.take_left' hbody
  have hdropTag : (body ++ tag).drop (L - 10) = tag := List.drop_left' hbody
  have hmain : Frame C um s =
      (if tag ≠ (C.hmacSHA256 s.macKey body).take 10
       then .err .wrongPassword { s with pos := s.pos + 4 + L, macWritten := body }
       else .ok L
        (um (xorKeyStream (ctrKeystreamByte C s.cipherKey (uint32ToBytes s.iv s.counter))
          0 body)).1
        { s with pos := s.pos + 4 + L, macWritten := body,
                 iv := uint32ToBytes s.iv s.counter,
                 counter := (s.counter + 1) % 2 ^ 32 }) := by
    unfold Frame
    simp only [readBytes, htake4, hlen4, bytesToUint32_natToBeBytes L hL32]
    rw [if_neg (by omega)]
    simp only [hdrop4, htakeL, hbt_len, Nat.sub_self, List.replicate_zero, List.append_nil,
      htakeBody, hdropTag]
    rw [if_neg (by omega)]
    simp only [hkey]
    rw [if_neg (show ¬¬(32 = 16 ∨ 32 = 24 ∨ True) by simp)]
  constructor
  · intro hm
    rw [hmain, if_pos hm]
  · intro hm
    rw [hmain, if_neg (by simpa using hm)]

/-- Closed instance for `c1_frame_mac_gates_decryption`: a complete
11-byte frame whose tag (ten zero bytes) disagrees with the constant-7
HMAC, so `Frame` reports the integrity error with the counter untouched. -/
theorem c1_witness :
    Frame c6Crypto okUnmarshal
      ⟨[0, 0, 0, 11, 8, 0, 0, 0, 0, 0, 0, 0, 0, 0, 0], 0,
        List.replicate 32 0, [], [], List.replicate 16 0, 0⟩ =
    .err .wrongPassword
      { (⟨[0, 0, 0, 11, 8, 0, 0, 0, 0, 0, 0, 0, 0, 0, 0], 0,
          List.replicate 32 0, [], [], List.replicate 16 0, 0⟩ : BackupState) with
        pos := 0 + 4 + 11, macWritten := [8] } :=
  (c1_frame_mac_gates_decryption c6Crypto okUnmarshal _ 11 [8] (List.replicate 10 0) []
    (by decide) (by decide) (by decide) (by decide) (by decide) (by decide)).1 (by decide)

/-! ## State preservation through the attachment loop -/

/-- The `BackupFile` state an attachment call leaves behind, successful or
not. -/
def attachState : AttachOut → BackupState
  | .ok s _ => s
  | .err _ s => s

theorem attachRead_state_inv (C : Crypto) (key iv2 : List Byte) :
    ∀ (remaining : Nat) (buf : List Byte) hbuf (off : Nat) (s : BackupState) chunks,
    (attachState (attachRead C key iv2 remaining buf hbuf off s chunks)).iv = s.iv ∧
    (attachState (attachRead C key iv2 remaining buf hbuf off s chunks)).counter = s.counter ∧
    (attachState (attachRead C key iv2 remaining buf hbuf off s chunks)).cipherKey = s.cipherKey ∧
    (attachState (attachRead C key iv2 remaining buf hbuf off s chunks)).macKey = s.macKey ∧
    (attachState (attachRead C key iv2 remaining buf hbuf off s chunks)).fileData = s.fileData := by
  intro remaining
  induction remaining using Nat.strong_induction_on with
  | _ remaining ih =>
    intro buf hbuf off s chunks
    rw [attachRead]
    by_cases h0 : remaining = 0
    · simp only [dif_pos h0]
      exact ⟨rfl, rfl, rfl, rfl, rfl⟩
    · simp only [dif_neg h0]
      by_cases ha : s.fileData.length - s.pos = 0
      · simp only [dif_pos ha]
        exact ⟨rfl, rfl, rfl, rfl, rfl⟩
      · simp only [dif_neg ha]
        exact ih _ (Nat.sub_lt (Nat.pos_of_ne_zero h0)
          (le_min (by
            by_cases h8 : remaining < ATTACHMENT_BUFFER_SIZE
            · rw [if_pos h8, List.length_replicate]
              omega
            · rw [if_neg h8, hbuf (not_lt.mp h8)]
              decide)
          (Nat.one_le_iff_ne_zero.mpr ha))) _ _ _ _ _

/-! ## C5: skip-mode attachment consumption and the default handlers -/

theorem decryptAttachment_skip (C : Crypto) (s : BackupState) (len : Nat) :
    DecryptAttachment C s len false =
      .ok { s with iv := uint32ToBytes s.iv s.counter,
                   counter := (s.counter + 1) % 2 ^ 32,
                   pos := s.pos + (len % 2 ^ 32 + 10) % 2 ^ 32 } [] := by
  obtain ⟨fd, pos, ck, mk, mw, iv, ct⟩ := s
  rfl

/-- C5: with a nil sink, `DecryptAttachment` only seeks the file forward by
`length + 10`, increments the counter, and leaves the MAC state untouched
(the returned state differs from the input state in `iv`, `counter` and
`pos` alone, and no bytes are written); and `Consume` installs exactly this
discarding call as the handler for each blob-carrying variant whose
consumer is unset. -/
theorem c5_skip_mode_and_defaults (C : Crypto) (fns : ConsumeFuncs)
    (s : BackupState) (len : Nat) (hlen : len + 10 < 2 ^ 32)
    (hA : fns.AttachmentFunc = none) (hV : fns.AvatarFunc = none)
    (hS : fns.StickerFunc = none) :
    DecryptAttachment C s len false =
      .ok { s with iv := uint32ToBytes s.iv s.counter,
                   counter := (s.counter + 1) % 2 ^ 32,
                   pos := s.pos + (len + 10) } [] ∧
    (withDefaults C fns).AttachmentFunc
      = some (fun a st => defaultBlobCall C a.length st) ∧
    (withDefaults C fns).AvatarFunc
      = some (fun a st => defaultBlobCall C a.length st) ∧
    (withDefaults C fns).StickerFunc
      = some (fun a st => defaultBlobCall C a.length st) ∧
    (∀ st : BackupState, defaultBlobCall C len st =
      ({ st with iv := uint32ToBytes st.iv st.counter,
                 counter := (st.counter + 1) % 2 ^ 32,
                 pos := st.pos + (len + 10) }, none)) := by
  have h1 : len % 2 ^ 32 = len := Nat.mod_eq_of_lt (by omega)
  have h2 : (len + 10) % 2 ^ 32 = len + 10 := Nat.mod_eq_of_lt hlen
  refine ⟨?_, ?_, ?_, ?_, ?_⟩
  · rw [decryptAttachment_skip, h1, h2]
  · simp [withDefaults, hA]
  · simp [withDefaults, hV]
  · simp [withDefaults, hS]
  · intro st
    unfold defaultBlobCall
    rw [decryptAttachment_skip, h1, h2]

/-- Closed instance for `c5_skip_mode_and_defaults`: skipping a
zero-length blob advances the position by exactly 10 and the counter by
one. -/
theorem c5_witness :
    DecryptAttachment c7Crypto c7State 0 false =
      .ok { c7State with iv := uint32ToBytes c7State.iv c7State.counter,
                         counter := (c7State.counter + 1) % 2 ^ 32,
                         pos := c7State.pos + (0 + 10) } [] :=
  (c5_skip_mode_and_defaults c7Crypto noFuncs c7State 0 (by decide) rfl rfl rfl).1

/-! ## C3: counter/IV discipline

The run-level half of C3 is proved against an instrumented copy of the
default-handler `Consume` loop that additionally counts the frames read
and the blobs skipped; the instrumented loop is proved to project onto
`consumeLoop` itself. -/

theorem attachRead_state_eq (C : Crypto) (key iv2 : List Byte)
    {remaining : Nat} {buf : List Byte} {hbuf} {off : Nat} {s : BackupState}
    {chunks : List (List Byte)} {r : AttachOut}
    (h : attachRead C key iv2 remaining buf hbuf off s chunks = r) :
    (attachState r).iv = s.iv ∧ (attachState r).counter = s.counter ∧
    (attachState r).cipherKey = s.cipherKey ∧ (attachState r).macKey = s.macKey ∧
    (attachState r).fileData = s.fileData :=
  h ▸ attachRead_state_inv C key iv2 remaining buf hbuf off s chunks

theorem frame_ok_state (C : Crypto) (um : Unmarshal) (s : BackupState)
    (L : Nat) (f : BackupFrame) (s' : BackupState)
    (h : Frame C um s = .ok L f s') :
    s'.iv = uint32ToBytes s.iv s.counter ∧ s'.counter = (s.counter + 1) % 2 ^ 32 := by
  unfold Frame at h
  simp only [readBytes] at h
  split at h
  · simp at h
  · split at h
    · simp at h
    · split at h
      · simp at h
      · split at h
        · simp at h
        · rw [FrameOut.ok.injEq] at h
          obtain ⟨-, -, h3⟩ := h
          subst h3
          exact ⟨rfl, rfl⟩

theorem frame_eof_counter (C : Crypto) (um : Unmarshal) (s s1 : BackupState)
    (h : Frame C um s = .err .eof s1) : s1.counter = s.counter := by
  unfold Frame at h
  simp only [readBytes] at h
  split at h
  · rw [FrameOut.err.injEq] at h
    obtain ⟨-, h2⟩ := h
    subst h2
    rfl
  · split at h
    · simp at h
    · split at h
      · simp at h
      · split at h
        · simp at h
        · simp at h

theorem decryptAttachment_state (C : Crypto) (s : BackupState) (len : Nat) (sink : Bool)
    (r : AttachOut) (h : DecryptAttachment C s len sink = r) :
    (attachState r).iv = uint32ToBytes s.iv s.counter ∧
    (attachState r).counter = (s.counter + 1) % 2 ^ 32 := by
  simp only [DecryptAttachment] at h
  split at h
  · subst h
    exact ⟨rfl, rfl⟩
  · split at h
    · subst h
      exact ⟨rfl, rfl⟩
    · split at h
      · next e s3 heq =>
        have hinv := attachRead_state_eq C _ _ heq
        subst h
        exact ⟨hinv.1, hinv.2.1⟩
      · next s3 chunks heq =>
        have hinv := attachRead_state_eq C _ _ heq
        split at h
        · subst h
          exact ⟨hinv.1, hinv.2.1⟩
        · subst h
          exact ⟨hinv.1, hinv.2.1⟩

theorem defaultBlobCall_eq (C : Crypto) (len : Nat) (st : BackupState) :
    defaultBlobCall C len st = ((defaultBlobCall C len st).1, none) := by
  unfold defaultBlobCall
  rw [decryptAttachment_skip]

theorem defaultBlobCall_counter (C : Crypto) (len : Nat) (st : BackupState) :
    (defaultBlobCall C len st).1.counter = (st.counter + 1) % 2 ^ 32 := by
  unfold defaultBlobCall
  rw [decryptAttachment_skip]

/-- Instrumentation helper: run the default discarding handler on its
optional payload length, reporting whether a blob was consumed. -/
def blobStep (C : Crypto) (o : Option Nat) (st : BackupState) : BackupState × Nat :=
  match o with
  | some len => ((defaultBlobCall C len st).1, 1)
  | none => (st, 0)

/-- Outcome of the instrumented loop: `ok` carries the frame and blob
counts of the remainder of the run. -/
inductive ConsumeCntOut where
  | ok (s : BackupState) (frames blobs : Nat)
  | err (e : BErr) (s : BackupState)
  | panicked (s : BackupState)
  | outOfFuel (s : BackupState)
deriving DecidableEq

/-- The `Consume` loop with every handler unset (so the three default
discarding handlers installed), instrumented to count frames and blobs. -/
def consumeLoopCnt (C : Crypto) (um : Unmarshal) : Nat → BackupState → ConsumeCntOut
  | 0, s => .outOfFuel s
  | fuel + 1, s =>
    match Frame C um s with
    | .panicked s1 => .panicked s1
    | .err e s1 => if e = .eof then .ok s1 0 0 else .err e s1
    | .ok _ f s1 =>
      match consumeLoopCnt C um fuel
          (blobStep C (f.sticker.map (fun a => a.length))
            (blobStep C (f.avatar.map (fun a => a.length))
              (blobStep C (f.attachment.map (fun a => a.length)) s1).1).1).1 with
      | .ok s' n m => .ok s' (n + 1)
          (m + ((blobStep C (f.attachment.map (fun a => a.length)) s1).2
            + (blobStep C (f.avatar.map (fun a => a.length))
                (blobStep C (f.attachment.map (fun a => a.length)) s1).1).2
            + (blobStep C (f.sticker.map (fun a => a.length))
                (blobStep C (f.avatar.map (fun a => a.length))
                  (blobStep C (f.attachment.map (fun a => a.length)) s1).1).1).2))
      | r => r

/-- Forget the instrumentation counts. -/
def forgetCnt : ConsumeCntOut → ConsumeOut
  | .ok s _ _ => .ok s
  | .err e s => .err e s
  | .panicked s => .panicked s
  | .outOfFuel s => .outOfFuel s

theorem cbStep_none {α : Type} (tag : List Char) (data : Option α) (st : BackupState) :
    cbStep tag none data st = (st, none) := by
  cases data <;> rfl

theorem cbStep_default_attachment (C : Crypto) (tag : List Char)
    (o : Option Attachment) (st : BackupState) (k : BackupState → ConsumeOut) :
    seqCb (cbStep tag (some (fun a st => defaultBlobCall C a.length st)) o st) k
      = k (blobStep C (o.map (fun a => a.length)) st).1 := by
  cases o with
  | none => rfl
  | some a =>
    show seqCb (match defaultBlobCall C a.length st with
      | (st2, some e) => (st2, some (.wrap tag e))
      | (st2, none) => (st2, none)) k = _
    rw [defaultBlobCall_eq]
    rfl

theorem cbStep_default_avatar (C : Crypto) (tag : List Char)
    (o : Option Avatar) (st : BackupState) (k : BackupState → ConsumeOut) :
    seqCb (cbStep tag (some (fun a st => defaultBlobCall C a.length st)) o st) k
      = k (blobStep C (o.map (fun a => a.length)) st).1 := by
  cases o with
  | none => rfl
  | some a =>
    show seqCb (match defaultBlobCall C a.length st with
      | (st2, some e) => (st2, some (.wrap tag e))
      | (st2, none) => (st2, none)) k = _
    rw [defaultBlobCall_eq]
    rfl

theorem cbStep_default_sticker (C : Crypto) (tag : List Char)
    (o : Option Sticker) (st : BackupState) (k : BackupState → ConsumeOut) :
    seqCb (cbStep tag (some (fun a st => defaultBlobCall C a.length st)) o st) k
      = k (blobStep C (o.map (fun a => a.length)) st).1 := by
  cases o with
  | none => rfl
  | some a =>
    show seqCb (match defaultBlobCall C a.length st with
      | (st2, some e) => (st2, some (.wrap tag e))
      | (st2, none) => (st2, none)) k = _
    rw [defaultBlobCall_eq]
    rfl

theorem consumeLoop_succ_ok (C : Crypto) (um : Unmarshal) (fns : ConsumeFuncs)
    (fuel : Nat) (s : BackupState) (L : Nat) (f : BackupFrame) (s1 : BackupState)
    (hF : Frame C um s = .ok L f s1) :
    consumeLoop C um fns (fuel + 1) s =
      (seqCb (cbStep "consume [frame]".toList
          (fns.FrameFunc.map (fun fn => fun (_ : Unit) st => fn f s.pos L st)) (some ()) s1) fun st1 =>
       seqCb (cbStep "consume [attachment]".toList fns.AttachmentFunc f.attachment st1) fun st2 =>
       seqCb (cbStep "consume [avatar]".toList fns.AvatarFunc f.avatar st2) fun st3 =>
       seqCb (cbStep "consume [sticker]".toList fns.StickerFunc f.sticker st3) fun st4 =>
       seqCb (cbStep "consume [preference]".toList fns.PreferenceFunc f.preference st4) fun st5 =>
       seqCb (cbStep "consume [keyvalue]".toList fns.KeyValueFunc f.keyValue st5) fun st6 =>
       seqCb (cbStep "consume [statement]".toList fns.StatementFunc f.statement st6) fun st7 =>
       consumeLoop C um fns fuel st7) := by
  conv_lhs => rw [consumeLoop]
  rw [hF]

theorem consumeLoop_succ_err (C : Crypto) (um : Unmarshal) (fns : ConsumeFuncs)
    (fuel : Nat) (s : BackupState) (e : BErr) (s1 : BackupState)
    (hF : Frame C um s = .err e s1) :
    consumeLoop C um fns (fuel + 1) s =
      (if e = .eof then .ok s1 else .err e s1) := by
  conv_lhs => rw [consumeLoop]
  rw [hF]

theorem consumeLoop_succ_panicked (C : Crypto) (um : Unmarshal) (fns : ConsumeFuncs)
    (fuel : Nat) (s : BackupState) (s1 : BackupState)
    (hF : Frame C um s = .panicked s1) :
    consumeLoop C um fns (fuel + 1) s = .panicked s1 := by
  conv_lhs => rw [consumeLoop]
  rw [hF]

theorem consumeLoopCnt_succ_ok (C : Crypto) (um : Unmarshal)
    (fuel : Nat) (s : BackupState) (L : Nat) (f : BackupFrame) (s1 : BackupState)
    (hF : Frame C um s = .ok L f s1) :
    consumeLoopCnt C um (fuel + 1) s =
      (match consumeLoopCnt C um fuel
          (blobStep C (f.sticker.map (fun a => a.length))
            (blobStep C (f.avatar.map (fun a => a.length))
              (blobStep C (f.attachment.map (fun a => a.length)) s1).1).1).1 with
      | .ok s' n m => .ok s' (n + 1)
          (m + ((blobStep C (f.attachment.map (fun a => a.length)) s1).2
            + (blobStep C (f.avatar.map (fun a => a.length))
                (blobStep C (f.attachment.map (fun a => a.length)) s1).1).2
            + (blobStep C (f.sticker.map (fun a => a.length))
                (blobStep C (f.avatar.map (fun a => a.length))
                  (blobStep C (f.attachment.map (fun a => a.length)) s1).1).1).2))
      | r => r) := by
  conv_lhs => rw [consumeLoopCnt]
  rw [hF]

theorem consumeLoopCnt_succ_err (C : Crypto) (um : Unmarshal)
    (fuel : Nat) (s : BackupState) (e : BErr) (s1 : BackupState)
    (hF : Frame C um s = .err e s1) :
    consumeLoopCnt C um (fuel + 1) s =
      (if e = .eof then .ok s1 0 0 else .err e s1) := by
  conv_lhs => rw [consumeLoopCnt]
  rw [hF]

theorem consumeLoopCnt_succ_panicked (C : Crypto) (um : Unmarshal)
    (fuel : Nat) (s : BackupState) (s1 : BackupState)
    (hF : Frame C um s = .panicked s1) :
    consumeLoopCnt C um (fuel + 1) s = .panicked s1 := by
  conv_lhs => rw [consumeLoopCnt]
  rw [hF]

theorem consumeLoop_default_eq_cnt (C : Crypto) (um : Unmarshal) :
    ∀ (fuel : Nat) (s : BackupState),
    consumeLoop C um (withDefaults C noFuncs) fuel s = forgetCnt (consumeLoopCnt C um fuel s) := by
  intro fuel
  induction fuel with
  | zero => intro s; rfl
  | succ fuel ih =>
    intro s
    rcases hF : Frame C um s with ⟨L, f, s1⟩ | ⟨e, s1⟩ | s1
    · rw [consumeLoop_succ_ok C um (withDefaults C noFuncs) fuel s L f s1 hF,
          consumeLoopCnt_succ_ok C um fuel s L f s1 hF]
      have hfr : ∀ k : BackupState → ConsumeOut,
          seqCb (cbStep "consume [frame]".toList
            ((withDefaults C noFuncs).FrameFunc.map
              (fun fn => fun (_ : Unit) st => fn f s.pos L st)) (some ()) s1) k = k s1 :=
        fun k => rfl
      rw [hfr]
      rw [show (withDefaults C noFuncs).AttachmentFunc
        = some (fun a st => defaultBlobCall C a.length st) from rfl]
      rw [cbStep_default_attachment]
      rw [show (withDefaults C noFuncs).AvatarFunc
        = some (fun a st => defaultBlobCall C a.length st) from rfl]
      rw [cbStep_default_avatar]
      rw [show (withDefaults C noFuncs).StickerFunc
        = some (fun a st => defaultBlobCall C a.length st) from rfl]
      rw [cbStep_default_sticker]
      have hskip : ∀ {α : Type} (tag : List Char) (data : Option α) (st : BackupState)
          (k : BackupState → ConsumeOut),
          seqCb (cbStep tag none data st) k = k st := by
        intro α tag data st k
        rw [cbStep_none]
        rfl
      rw [show (withDefaults C noFuncs).PreferenceFunc = none from rfl, hskip]
      rw [show (withDefaults C noFuncs).KeyValueFunc = none from rfl, hskip]
      rw [show (withDefaults C noFuncs).StatementFunc = none from rfl, hskip]
      rw [ih]
      cases consumeLoopCnt C um fuel
        (blobStep C (f.sticker.map (fun a => a.length))
          (blobStep C (f.avatar.map (fun a => a.length))
            (blobStep C (f.attachment.map (fun a => a.length)) s1).1).1).1 <;> rfl
    · rw [consumeLoop_succ_err C um (withDefaults C noFuncs) fuel s e s1 hF,
          consumeLoopCnt_succ_err C um fuel s e s1 hF]
      by_cases he : e = .eof
      · rw [if_pos he, if_pos he]
        rfl
      · rw [if_neg he, if_neg he]
        rfl
    · rw [consumeLoop_succ_panicked C um (withDefaults C noFuncs) fuel s s1 hF,
          consumeLoopCnt_succ_panicked C um fuel s s1 hF]
      rfl

theorem blobStep_counter (C : Crypto) (o : Option Nat) (st : BackupState)
    (hc : st.counter < 2 ^ 32) :
    (blobStep C o st).1.counter = (st.counter + (blobStep C o st).2) % 2 ^ 32 ∧
    (blobStep C o st).1.counter < 2 ^ 32 := by
  cases o with
  | none =>
    simp only [blobStep]
    rw [Nat.mod_eq_of_lt (by omega)]
    exact ⟨rfl, hc⟩
  | some len =>
    constructor
    · simp only [blobStep]
      rw [defaultBlobCall_counter]
    · simp only [blobStep]
      rw [defaultBlobCall_counter]
      exact Nat.mod_lt _ (by norm_num)

theorem consumeLoopCnt_counter (C : Crypto) (um : Unmarshal) :
    ∀ (fuel : Nat) (s s' : BackupState) (n m : Nat), s.counter < 2 ^ 32 →
    consumeLoopCnt C um fuel s = .ok s' n m →
    s'.counter = (s.counter + n + m) % 2 ^ 32 := by
  intro fuel
  induction fuel with
  | zero =>
    intro s s' n m hc h
    simp [consumeLoopCnt] at h
  | succ fuel ih =>
    intro s s' n m hc h
    rcases hF : Frame C um s with ⟨L, f, s1⟩ | ⟨e, s1⟩ | s1
    · rw [consumeLoopCnt_succ_ok C um fuel s L f s1 hF] at h
      have hc1 : s1.counter = (s.counter + 1) % 2 ^ 32 :=
        (frame_ok_state C um s L f s1 hF).2
      have hc1' : s1.counter < 2 ^ 32 := by
        rw [hc1]
        exact Nat.mod_lt _ (by norm_num)
      have hb1 := blobStep_counter C (f.attachment.map (fun a => a.length)) s1 hc1'
      have hb2 := blobStep_counter C (f.avatar.map (fun a => a.length)) _ hb1.2
      have hb3 := blobStep_counter C (f.sticker.map (fun a => a.length)) _ hb2.2
      split at h
      · rename_i s2 n2 m2 hrec
        rw [ConsumeCntOut.ok.injEq] at h
        obtain ⟨h1, h2, h3⟩ := h
        subst h1 h2 h3
        have hrec' := ih _ s2 n2 m2 hb3.2 hrec
        rw [hrec', hb3.1, hb2.1, hb1.1, hc1]
        omega
      · rename_i hne
        exact absurd h (hne _ _ _)
    · rw [consumeLoopCnt_succ_err C um fuel s e s1 hF] at h
      split at h
      · rename_i he
        rw [ConsumeCntOut.ok.injEq] at h
        obtain ⟨h1, h2, h3⟩ := h
        subst h1 h2 h3
        subst he
        rw [frame_eof_counter C um s s1 hF]
        rw [Nat.mod_eq_of_lt (by omega)]
        omega
      · simp at h
    · rw [consumeLoopCnt_succ_panicked C um fuel s s1 hF] at h
      simp at h

/-- Projection used to state C3's per-call invariant uniformly over
successful and failing attachment calls. -/
theorem decryptAttachment_state_iv (C : Crypto) (s : BackupState) (len : Nat) (sink : Bool)
    (r : AttachOut) (h : DecryptAttachment C s len sink = r) :
    bytesToUint32 (attachState r).iv = s.counter % 2 ^ 32 := by
  rw [(decryptAttachment_state C s len sink r h).1, bytesToUint32_uint32ToBytes]

/-- C3: before each AES-CTR operation the top four IV bytes hold the
entry counter big-endian (`bytesToUint32` reads exactly those four bytes);
every successful `Frame` call and every `DecryptAttachment` call
(streaming or skipping, successful or not) advances the counter by exactly
one modulo `2 ^ 32`; and a default-handler `Consume` run that ends at a
clean EOF leaves the counter at its initial value plus the number of
frames read plus the number of blobs consumed. -/
theorem c3_counter_iv_discipline (C : Crypto) (um : Unmarshal) :
    (∀ s L f s', Frame C um s = .ok L f s' →
      s'.iv = uint32ToBytes s.iv s.counter ∧
      bytesToUint32 s'.iv = s.counter % 2 ^ 32 ∧
      s'.counter = (s.counter + 1) % 2 ^ 32) ∧
    (∀ s len sink r, DecryptAttachment C s len sink = r →
      (attachState r).iv = uint32ToBytes s.iv s.counter ∧
      bytesToUint32 (attachState r).iv = s.counter % 2 ^ 32 ∧
      (attachState r).counter = (s.counter + 1) % 2 ^ 32) ∧
    (∀ fuel s s' n m, s.counter < 2 ^ 32 →
      consumeLoopCnt C um fuel s = .ok s' n m →
      Consume C um noFuncs fuel s = .ok s' ∧
      s'.counter = (s.counter + n + m) % 2 ^ 32) := by
  refine ⟨?_, ?_, ?_⟩
  · intro s L f s' h
    obtain ⟨h1, h2⟩ := frame_ok_state C um s L f s' h
    exact ⟨h1, by rw [h1, bytesToUint32_uint32ToBytes], h2⟩
  · intro s len sink r h
    obtain ⟨h1, h2⟩ := decryptAttachment_state C s len sink r h
    exact ⟨h1, decryptAttachment_state_iv C s len sink r h, h2⟩
  · intro fuel s s' n m hc h
    constructor
    · unfold Consume
      rw [consumeLoop_default_eq_cnt, h]
      rfl
    · exact consumeLoopCnt_counter C um fuel s s' n m hc h

/-- Closed instance for `c3_counter_iv_discipline`: a run over the empty
file reads zero frames and blobs and leaves the counter unchanged. -/
theorem c3_witness :
    Consume c7Crypto okUnmarshal noFuncs 1
      ⟨[], 0, [], [], [], List.replicate 16 0, 0⟩ =
      .ok ⟨[], 0, [], [], [], List.replicate 16 0, 0⟩ ∧
    (⟨[], 0, [], [], [], List.replicate 16 0, 0⟩ : BackupState).counter = (0 + 0 + 0) % 2 ^ 32 :=
  (c3_counter_iv_discipline c7Crypto okUnmarshal).2.2 1
    ⟨[], 0, [], [], [], List.replicate 16 0, 0⟩
    ⟨[], 0, [], [], [], List.replicate 16 0, 0⟩ 0 0 (by decide) (by decide)

/-! ## C4: streaming attachment decryption -/

theorem xorKeyStream_nil (ks : Nat → Byte) (off : Nat) : xorKeyStream ks off [] = [] := rfl

/-- Behaviour of the streaming loop when the file holds at least
`remaining` more bytes (the regular-file case the spec describes): it
consumes exactly `remaining` bytes, feeds exactly those bytes to the MAC,
and writes out their keystream decryption in order, in chunks of at most
`ATTACHMENT_BUFFER_SIZE` bytes. -/
theorem attachRead_full (C : Crypto) (key iv2 : List Byte) :
    ∀ (remaining : Nat) (buf : List Byte) hbuf (off : Nat) (s : BackupState)
      (chunks : List (List Byte)),
    remaining ≤ s.fileData.length - s.pos →
    ∃ out : List (List Byte),
      attachRead C key iv2 remaining buf hbuf off s chunks =
        .ok { s with pos := s.pos + remaining,
                     macWritten := s.macWritten ++ (s.fileData.drop s.pos).take remaining }
          (chunks ++ out) ∧
      out.flatten = xorKeyStream (ctrKeystreamByte C key iv2) off
        ((s.fileData.drop s.pos).take remaining) ∧
      ∀ c ∈ out, c.length ≤ ATTACHMENT_BUFFER_SIZE := by
  intro remaining
  induction remaining using Nat.strong_induction_on with
  | _ remaining ih =>
    intro buf hbuf off s chunks hrem
    obtain ⟨fd, pos, ck, mk, mw, iv, ct⟩ := s
    rw [attachRead]
    by_cases h0 : remaining = 0
    · subst h0
      simp only [dif_pos rfl]
      exact ⟨[], by simp, by simp [xorKeyStream], by simp⟩
    · simp only [dif_neg h0]
      have ha : ¬ ((⟨fd, pos, ck, mk, mw, iv, ct⟩ : BackupState).fileData.length
          - (⟨fd, pos, ck, mk, mw, iv, ct⟩ : BackupState).pos = 0) := by
        show ¬ (fd.length - pos = 0)
        simp only at hrem
        omega
      simp only [dif_neg ha]
      have hrem' : remaining ≤ fd.length - pos := hrem
      set b := (if remaining < ATTACHMENT_BUFFER_SIZE
        then List.replicate remaining 0 else buf) with hbdef
      set D := fd.drop pos with hDdef
      set n := min b.length (fd.length - pos) with hndef
      have hblen : b.length = min remaining ATTACHMENT_BUFFER_SIZE := by
        rw [hbdef]
        by_cases h8 : remaining < ATTACHMENT_BUFFER_SIZE
        · rw [if_pos h8, List.length_replicate, Nat.min_eq_left (Nat.le_of_lt h8)]
        · rw [if_neg h8, hbuf (not_lt.mp h8), Nat.min_eq_right (not_lt.mp h8)]
      have hApos : 1 ≤ ATTACHMENT_BUFFER_SIZE := by decide
      have hn_eq : n = min remaining ATTACHMENT_BUFFER_SIZE := by
        rw [hndef, hblen]
        omega
      have hn1 : 1 ≤ n := by omega
      have hnle : n ≤ remaining := by omega
      have hnA : n ≤ ATTACHMENT_BUFFER_SIZE := by omega
      have hnavail : n ≤ fd.length - pos := by omega
      have hnb : n = b.length := by omega
      have hdropb : b.drop n = [] := by
        rw [hnb, List.drop_length]
      have hchunklen : (D.take n).length = n := by
        rw [List.length_take, hDdef, List.length_drop]
        omega
      have hb2 : D.take n ++ b.drop n = D.take n := by
        rw [hdropb, List.append_nil]
      have hdrop2 : fd.drop (pos + n) = D.drop n := by
        rw [hDdef, List.drop_drop, Nat.add_comm]
      obtain ⟨out', h1', h2', h3'⟩ := ih (remaining - n) (Nat.sub_lt (by omega) hn1)
        (D.take n ++ b.drop n)
        (fun hle => by
          rw [List.length_append, hchunklen, List.length_drop, ← hnb]
          omega)
        (off + (D.take n ++ b.drop n).length)
        ⟨fd, pos + n, ck, mk, mw ++ (D.take n ++ b.drop n), iv, ct⟩
        (chunks ++ [xorKeyStream (ctrKeystreamByte C key iv2) off (D.take n ++ b.drop n)])
        (by
          show remaining - n ≤ fd.length - (pos + n)
          omega)
      refine ⟨xorKeyStream (ctrKeystreamByte C key iv2) off (D.take n ++ b.drop n) :: out',
        ?_, ?_, ?_⟩
      · refine h1'.trans ?_
        congr 1
        · simp only [BackupState.mk.injEq, true_and, and_true]
          refine ⟨by omega, ?_⟩
          rw [hb2, hdrop2, List.append_assoc]
          congr 1
          rw [← List.take_add, Nat.add_sub_cancel' hnle]
        · rw [List.append_assoc]
          rfl
      · rw [List.flatten_cons, h2']
        show xorKeyStream (ctrKeystreamByte C key iv2) off (D.take n ++ b.drop n) ++
          xorKeyStream (ctrKeystreamByte C key iv2)
            (off + (D.take n ++ b.drop n).length) ((fd.drop (pos + n)).take (remaining - n))
          = xorKeyStream (ctrKeystreamByte C key iv2) off (D.take remaining)
        rw [← xorKeyStream_append, hb2, hdrop2]
        rw [← List.take_add, Nat.add_sub_cancel' hnle]
      · intro c hc
        rcases List.mem_cons.mp hc with hc | hc
        · subst hc
          rw [xorKeyStream_length, hb2, hchunklen]
          exact hnA
        · exact h3' c hc

/-- C4: for a blob of declared length `N` with a present sink and at least
`N + 10` bytes left in the file, `DecryptAttachment` resets the MAC and
feeds it the 16-byte IV followed by exactly the `N` ciphertext bytes; it
fails with the integrity error iff the 10-byte trailer differs from the
first 10 bytes of that HMAC; on success it has written exactly the
AES-CTR decryption of those `N` bytes, in order, in chunks of at most
8,192 bytes.  `N = 0` is legal and produces empty output with a MAC over
just the IV. -/
theorem c4_attachment_streaming (C : Crypto) (s : BackupState) (N : Nat)
    (hN : N < 2 ^ 32) (hkey : s.cipherKey.length = 32)
    (havail : N + 10 ≤ s.fileData.length - s.pos) :
    (((s.fileData.drop s.pos).drop N).take 10 ≠
        (C.hmacSHA256 s.macKey
          (uint32ToBytes s.iv s.counter ++ (s.fileData.drop s.pos).take N)).take 10 →
      DecryptAttachment C s N true = .err .wrongPassword
        { s with pos := s.pos + N + 10,
                 macWritten := uint32ToBytes s.iv s.counter ++ (s.fileData.drop s.pos).take N,
                 iv := uint32ToBytes s.iv s.counter,
                 counter := (s.counter + 1) % 2 ^ 32 }) ∧
    (((s.fileData.drop s.pos).drop N).take 10 =
        (C.hmacSHA256 s.macKey
          (uint32ToBytes s.iv s.counter ++ (s.fileData.drop s.pos).take N)).take 10 →
      ∃ chunks : List (List Byte),
        DecryptAttachment C s N true = .ok
          { s with pos := s.pos + N + 10,
                   macWritten := uint32ToBytes s.iv s.counter ++ (s.fileData.drop s.pos).take N,
                   iv := uint32ToBytes s.iv s.counter,
                   counter := (s.counter + 1) % 2 ^ 32 } chunks ∧
        chunks.flatten = xorKeyStream
          (ctrKeystreamByte C s.cipherKey (uint32ToBytes s.iv s.counter)) 0
          ((s.fileData.drop s.pos).take N) ∧
        ∀ c ∈ chunks, c.length ≤ ATTACHMENT_BUFFER_SIZE) := by
  have hN32 : N % 2 ^ 32 = N := Nat.mod_eq_of_lt hN
  obtain ⟨out, h1, h2, h3⟩ := attachRead_full C s.cipherKey (uint32ToBytes s.iv s.counter) N
    (List.replicate ATTACHMENT_BUFFER_SIZE 0) (fun _ => by simp) 0
    { s with iv := uint32ToBytes s.iv s.counter, counter := (s.counter + 1) % 2 ^ 32,
             macWritten := uint32ToBytes s.iv s.counter } []
    (by
      show N ≤ s.fileData.length - s.pos
      omega)
  have hgl : ((s.fileData.drop (s.pos + N)).take 10).length = 10 := by
    rw [List.length_take, List.length_drop]
    omega
  have hdd : (s.fileData.drop s.pos).drop N = s.fileData.drop (s.pos + N) := by
    rw [List.drop_drop, Nat.add_comm]
  have hmain : DecryptAttachment C s N true =
      (if (s.fileData.drop (s.pos + N)).take 10 ≠
          (C.hmacSHA256 s.macKey
            (uint32ToBytes s.iv s.counter ++ (s.fileData.drop s.pos).take N)).take 10
       then .err .wrongPassword
        { s with pos := s.pos + N + 10,
                 macWritten := uint32ToBytes s.iv s.counter ++ (s.fileData.drop s.pos).take N,
                 iv := uint32ToBytes s.iv s.counter,
                 counter := (s.counter + 1) % 2 ^ 32 }
       else .ok
        { s with pos := s.pos + N + 10,
                 macWritten := uint32ToBytes s.iv s.counter ++ (s.fileData.drop s.pos).take N,
                 iv := uint32ToBytes s.iv s.counter,
                 counter := (s.counter + 1) % 2 ^ 32 } out) := by
    unfold DecryptAttachment
    rw [if_neg (show ¬¬(true = true) by simp)]
    simp only [hkey]
    rw [if_neg (show ¬¬((32 : Nat) = 16 ∨ (32 : Nat) = 24 ∨ True) by simp)]
    simp only [hN32, h1, readBytes, List.nil_append, hgl, Nat.sub_self,
      List.replicate_zero, List.append_nil]
  constructor
  · intro hm
    rw [hdd] at hm
    rw [hmain, if_pos hm]
  · intro hm
    rw [hdd] at hm
    rw [hmain, if_neg (by simpa using hm)]
    exact ⟨out, rfl, h2, h3⟩

/-- A backup state whose file holds a 3-byte blob followed by its 10-byte
trailer (the all-zero tag matching `c7Crypto`'s constant HMAC). -/
def c4State : BackupState :=
  ⟨[10, 20, 30, 0, 0, 0, 0, 0, 0, 0, 0, 0, 0], 0, List.replicate 32 0,
   List.replicate 32 0, [], List.replicate 16 0, 0⟩

/-- Closed instance for `c4_attachment_streaming`: streaming a 3-byte blob
whose trailer matches. -/
theorem c4_witness :
    ∃ chunks : List (List Byte),
      DecryptAttachment c7Crypto c4State 3 true = .ok
        { c4State with pos := c4State.pos + 3 + 10,
                       macWritten := uint32ToBytes c4State.iv c4State.counter ++
                         (c4State.fileData.drop c4State.pos).take 3,
                       iv := uint32ToBytes c4State.iv c4State.counter,
                       counter := (c4State.counter + 1) % 2 ^ 32 } chunks ∧
      chunks.flatten = xorKeyStream
        (ctrKeystreamByte c7Crypto c4State.cipherKey
          (uint32ToBytes c4State.iv c4State.counter)) 0
        ((c4State.fileData.drop c4State.pos).take 3) ∧
      ∀ c ∈ chunks, c.length ≤ ATTACHMENT_BUFFER_SIZE :=
  (c4_attachment_streaming c7Crypto c4State 3 (by decide) (by decide) (by decide)).2
    (by decide)

/-! ## C9: parameter-cell binding -/

/-- C9: `ParameterValue` probes the cell's fields in the fixed order
string, integer, double, blob; the first populated field wins; a populated
integer is the unsigned 64-bit pattern reinterpreted as signed 64-bit; a
fully empty cell binds to the typed nil chosen by the column affinity
(plain nil for `CT_None`); and binding is a pure function, hence
idempotent. -/
theorem c9_parameter_value_binding (p : SqlParameter) (typ : ColumnType) :
    (∀ v, p.stringParameter = some v → ParameterValue p typ = .str (some v)) ∧
    (∀ u, u < 2 ^ 64 → p.stringParameter = none → p.integerParameter = some u →
      ParameterValue p typ =
        .int (some (if u < 2 ^ 63 then (u : Int) else (u : Int) - 2 ^ 64))) ∧
    (∀ d, p.stringParameter = none → p.integerParameter = none →
      p.doubleParameter = some d → ParameterValue p typ = .real (some d)) ∧
    (∀ b, p.stringParameter = none → p.integerParameter = none →
      p.doubleParameter = none → p.blobParameter = some b →
      ParameterValue p typ = .blob (some b)) ∧
    (p.stringParameter = none → p.integerParameter = none →
      p.doubleParameter = none → p.blobParameter = none →
      ParameterValue p typ = (match typ with
        | .CT_Text => .str none
        | .CT_Integer => .int none
        | .CT_Real => .real none
        | .CT_Blob => .blob none
        | .CT_None => .untypedNil)) ∧
    ParameterValue p typ = ParameterValue p typ := by
  refine ⟨?_, ?_, ?_, ?_, ?_, rfl⟩
  · intro v hv
    simp [ParameterValue, hv]
  · intro u hu hs hi
    have h1 : ParameterValue p typ = .int (signed (some u)) := by
      simp only [ParameterValue, hs, hi, Option.isSome_none, Option.isSome_some,
        Bool.false_eq_true, if_false, if_true]
    have h2 : signed (some u) =
        some (if u < 2 ^ 63 then (u : Int) else (u : Int) - 2 ^ 64) := by
      show some (if u % 2 ^ 64 < 2 ^ 63 then ((u % 2 ^ 64 : Nat) : Int)
        else ((u % 2 ^ 64 : Nat) : Int) - 2 ^ 64) = _
      rw [Nat.mod_eq_of_lt hu]
    rw [h1, h2]
  · intro d hs hi hd
    simp [ParameterValue, hs, hi, hd]
  · intro b hs hi hd hb
    simp [ParameterValue, hs, hi, hd, hb]
  · intro hs hi hd hb
    simp [ParameterValue, hs, hi, hd, hb, signed]

/-- Closed instance for `c9_parameter_value_binding`: the cell holding the
unsigned pattern `0xFFFFFFFFFFFFFFFF` under `Integer` affinity binds as
the signed value `-1`, not `2 ^ 64 - 1`. -/
theorem c9_witness :
    ParameterValue ⟨none, some (2 ^ 64 - 1), none, none, none⟩ .CT_Integer =
      .int (some (-1)) := by
  have h := (c9_parameter_value_binding ⟨none, some (2 ^ 64 - 1), none, none, none⟩
    .CT_Integer).2.1 (2 ^ 64 - 1) (by norm_num) rfl rfl
  rw [if_neg (by norm_num)] at h
  rw [h]
  norm_num

/-! ## C8: schema extraction -/

/-- Decidable check that every fragment of a suffix lands in the
skip (`continue`) branch of the `NewSchema` loop: the flag is on when each
fragment is reached (each directive opener turns it on), so no fragment
adds an index entry or sets a type. -/
def skipsAll : Bool → List (List Char) → Bool
  | _, [] => true
  | inP, d :: rest =>
    let name := nameOf d
    let inP1 := if name.contains '(' then true else inP
    if inP1 then skipsAll (if name.contains ')' then false else true) rest
    else false

/-- The index insertions the loop performs over a paren-free prefix. -/
def insertAll (idx : List (List Char × Nat)) (i : Nat) : List (List Char) → List (List Char × Nat)
  | [] => idx
  | frag :: rest => insertAll (mapInsert idx (nameOf frag) i) (i + 1) rest

/-- The affinity the loop assigns for one fragment: the second
whitespace-delimited token when present, `CT_None` otherwise. -/
def affinityOf (frag : List Char) : ColumnType :=
  if 1 < (splitNChar ' ' 3 (trimSpaceGo frag)).length
  then columnTypeFromString ((splitNChar ' ' 3 (trimSpaceGo frag)).getD 1 [])
  else .CT_None

/-- The type-array updates the loop performs over a paren-free prefix. -/
def setTypes (typ : List ColumnType) (i : Nat) : List (List Char) → List ColumnType
  | [] => typ
  | frag :: rest =>
    setTypes (if 1 < (splitNChar ' ' 3 (trimSpaceGo frag)).length
              then typ.set i (columnTypeFromString ((splitNChar ' ' 3 (trimSpaceGo frag)).getD 1 []))
              else typ) (i + 1) rest

theorem schemaLoop_skipsAll : ∀ (dirs : List (List Char)) (i j : Nat) (inP : Bool)
    (idx : List (List Char × Nat)) (typ : List ColumnType),
    skipsAll inP dirs = true →
    schemaLoop dirs i j inP idx typ = (idx, typ) := by
  intro dirs
  induction dirs with
  | nil => intro i j inP idx typ _; rfl
  | cons d rest ih =>
    intro i j inP idx typ h
    rw [skipsAll] at h
    rw [schemaLoop]
    simp only [nameOf] at h
    cases hp : ((splitNChar ' ' 3 (trimSpaceGo d)).headD []).contains '(' with
    | true =>
      simp only [hp, if_true] at h ⊢
      cases hc : ((splitNChar ' ' 3 (trimSpaceGo d)).headD []).contains ')' with
      | true =>
        simp only [hc, if_true] at h ⊢
        exact ih _ _ _ _ _ h
      | false =>
        simp only [hc, Bool.false_eq_true, if_false] at h ⊢
        exact ih _ _ _ _ _ h
    | false =>
      simp only [hp, Bool.false_eq_true, if_false] at h ⊢
      cases inP with
      | false => simp at h
      | true =>
        simp only [if_true] at h ⊢
        cases hc : ((splitNChar ' ' 3 (trimSpaceGo d)).headD []).contains ')' with
        | true =>
          simp only [hc, if_true] at h ⊢
          exact ih _ _ _ _ _ h
        | false =>
          simp only [hc, Bool.false_eq_true, if_false] at h ⊢
          exact ih _ _ _ _ _ h

theorem schemaLoop_prefix : ∀ (real dirs : List (List Char)) (i : Nat)
    (idx : List (List Char × Nat)) (typ : List ColumnType),
    (∀ frag ∈ real, (nameOf frag).contains '(' = false) →
    skipsAll false dirs = true →
    schemaLoop (real ++ dirs) i 0 false idx typ =
      (insertAll idx i real, setTypes typ i real) := by
  intro real
  induction real with
  | nil =>
    intro dirs i idx typ _ hdirs
    rw [List.nil_append]
    exact schemaLoop_skipsAll dirs i 0 false idx typ hdirs
  | cons frag rest ih =>
    intro dirs i idx typ hparen hdirs
    have hp : (nameOf frag).contains '(' = false := hparen frag (List.mem_cons_self _ _)
    simp only [nameOf] at hp
    rw [List.cons_append, schemaLoop]
    simp only [hp, Bool.false_eq_true, if_false]
    rw [Nat.sub_zero]
    rw [insertAll, setTypes]
    exact ih dirs (i + 1) _ _ (fun f hf => hparen f (List.mem_cons_of_mem _ hf)) hdirs

theorem insertAll_fresh : ∀ (real : List (List Char)) (idx : List (List Char × Nat)) (i : Nat),
    (∀ frag ∈ real, idx.any (fun p => p.1 == nameOf frag) = false) →
    (real.map nameOf).Nodup →
    insertAll idx i real = idx ++ (real.map nameOf).zip (List.range' i real.length) := by
  intro real
  induction real with
  | nil => intro idx i _ _; simp [insertAll]
  | cons frag rest ih =>
    intro idx i hfresh hnodup
    rw [insertAll]
    rw [mapInsert, if_neg (by
      rw [hfresh frag (List.mem_cons_self _ _)]
      simp)]
    rw [ih (idx ++ [(nameOf frag, i)]) (i + 1) ?_ ?_]
    · rw [List.map_cons, List.length_cons, List.range', List.zip_cons_cons,
        List.append_assoc]
      rfl
    · intro f hf
      rw [List.any_append]
      rw [hfresh f (List.mem_cons_of_mem _ hf)]
      simp only [Bool.false_or, List.any_cons, List.any_nil, Bool.or_false]
      have hne : nameOf frag ≠ nameOf f := by
        rw [List.map_cons, List.nodup_cons] at hnodup
        intro hEq
        exact hnodup.1 (hEq ▸ List.mem_map_of_mem nameOf hf)
      simp [hne]
    · rw [List.map_cons, List.nodup_cons] at hnodup
      exact hnodup.2

theorem mapLookup_zip_range : ∀ (names : List (List Char)) (i k : Nat)
    (hk : k < names.length), names.Nodup →
    mapLookup (names.zip (List.range' i names.length)) (names.get ⟨k, hk⟩) = some (i + k) := by
  intro names
  induction names with
  | nil => intro i k hk _; simp at hk
  | cons nm rest ih =>
    intro i k hk hnodup
    cases k with
    | zero =>
      show mapLookup ((nm, i) :: rest.zip (List.range' (i + 1) rest.length)) nm = some (i + 0)
      rw [mapLookup, List.find?]
      simp
    | succ k =>
      show mapLookup ((nm, i) :: rest.zip (List.range' (i + 1) rest.length))
        (rest.get ⟨k, by simpa using hk⟩) = some (i + (k + 1))
      rw [List.nodup_cons] at hnodup
      have hne : (nm == rest.get ⟨k, by simpa using hk⟩) = false := by
        have : nm ≠ rest.get ⟨k, by simpa using hk⟩ := by
          intro hEq
          exact hnodup.1 (hEq ▸ List.get_mem rest _ _)
        simpa using this
      rw [mapLookup, List.find?]
      simp only [hne]
      have := ih (i + 1) k (by simpa using hk) hnodup.2
      rw [mapLookup] at this
      rw [this]
      congr 1
      omega

theorem setTypes_length : ∀ (real : List (List Char)) (typ : List ColumnType) (i : Nat),
    (setTypes typ i real).length = typ.length := by
  intro real
  induction real with
  | nil => intro typ i; rfl
  | cons frag rest ih =>
    intro typ i
    rw [setTypes]
    rw [ih]
    by_cases hp : 1 < (splitNChar ' ' 3 (trimSpaceGo frag)).length
    · rw [if_pos hp, List.length_set]
    · rw [if_neg hp]

theorem setTypes_get_lt : ∀ (real : List (List Char)) (typ : List ColumnType) (i p : Nat),
    p < i → (setTypes typ i real).get? p = typ.get? p := by
  intro real
  induction real with
  | nil => intro typ i p _; rfl
  | cons frag rest ih =>
    intro typ i p hp
    rw [setTypes, ih _ _ _ (by omega)]
    by_cases h1 : 1 < (splitNChar ' ' 3 (trimSpaceGo frag)).length
    · rw [if_pos h1, List.get?_set_ne _ _ (by omega)]
    · rw [if_neg h1]

theorem setTypes_get : ∀ (real : List (List Char)) (typ : List ColumnType) (i k : Nat)
    (hk : k < real.length), i + real.length ≤ typ.length →
    (∀ j, j < real.length → typ.get? (i + j) = some .CT_None) →
    (setTypes typ i real).get? (i + k) = some (affinityOf (real.get ⟨k, hk⟩)) := by
  intro real
  induction real with
  | nil => intro typ i k hk _ _; simp at hk
  | cons frag rest ih =>
    intro typ i k hk hlen htyp0
    rw [setTypes]
    cases k with
    | zero =>
      rw [setTypes_get_lt rest _ (i + 1) (i + 0) (by omega)]
      show _ = some (affinityOf frag)
      by_cases h1 : 1 < (splitNChar ' ' 3 (trimSpaceGo frag)).length
      · rw [if_pos h1]
        rw [show i + 0 = i from by omega]
        rw [List.get?_set_eq_of_lt _ (by simp at hlen; omega)]
        rw [affinityOf, if_pos h1]
      · rw [if_neg h1]
        rw [affinityOf, if_neg h1]
        have := htyp0 0 (by simp)
        simpa using this
    | succ k =>
      have hk' : k < rest.length := by simpa using hk
      show _ = some (affinityOf (rest.get ⟨k, hk'⟩))
      rw [show i + (k + 1) = (i + 1) + k from by omega]
      refine ih _ (i + 1) k hk' ?_ ?_
      · by_cases h1 : 1 < (splitNChar ' ' 3 (trimSpaceGo frag)).length
        · rw [if_pos h1, List.length_set]
          simp at hlen
          omega
        · rw [if_neg h1]
          simp at hlen
          omega
      · intro j hj
        by_cases h1 : 1 < (splitNChar ' ' 3 (trimSpaceGo frag)).length
        · rw [if_pos h1, List.get?_set_ne _ _ (by omega)]
          rw [show i + 1 + j = i + (j + 1) from by omega]
          exact htyp0 (j + 1) (by simpa using hj)
        · rw [if_neg h1]
          rw [show i + 1 + j = i + (j + 1) from by omega]
          exact htyp0 (j + 1) (by simpa using hj)

/-- C8 (amended): for a column list whose top-level fragments split into a
prefix of real column fragments (name tokens free of parentheses, names
distinct) followed by a suffix wholly skipped by the parenthesis logic
(as table-level directives at the end of a `CREATE TABLE` are), the schema
has exactly one index entry per real fragment; the `k`-th real column name
maps to index `k`, and the type array holds, at that same index, the
affinity named by the fragment's second whitespace-delimited token
(`TEXT`, `INTEGER`, `REAL`, `BLOB`, else `CT_None`).  The type array keeps
one (never-consulted) `CT_None` slot per directive fragment. -/
theorem c8_schema_trailing_directives (body : List Char) (real dirs : List (List Char))
    (hsplit : splitOnChar ',' (Unwrap body "()".toList) = real ++ dirs)
    (hparen : ∀ frag ∈ real, (nameOf frag).contains '(' = false)
    (hnodup : (real.map nameOf).Nodup)
    (hdirs : skipsAll false dirs = true) :
    (NewSchema body).Index.length = real.length ∧
    (NewSchema body).Typ.length = real.length + dirs.length ∧
    ∀ k (hk : k < real.length),
      mapLookup (NewSchema body).Index (nameOf (real.get ⟨k, hk⟩)) = some k ∧
      (NewSchema body).Typ.get? k = some (affinityOf (real.get ⟨k, hk⟩)) := by
  have hloop : NewSchema body =
      ⟨insertAll [] 0 real,
       setTypes (List.replicate (real.length + dirs.length) .CT_None) 0 real⟩ := by
    unfold NewSchema
    rw [hsplit]
    show (⟨(schemaLoop (real ++ dirs) 0 0 false []
        (List.replicate (real ++ dirs).length .CT_None)).1,
      (schemaLoop (real ++ dirs) 0 0 false []
        (List.replicate (real ++ dirs).length .CT_None)).2⟩ : Schema) = _
    rw [List.length_append, schemaLoop_prefix real dirs 0 [] _ hparen hdirs]
  have hins : insertAll [] 0 real = (real.map nameOf).zip (List.range' 0 real.length) := by
    rw [insertAll_fresh real [] 0 (fun _ _ => rfl) hnodup]
    rfl
  rw [hloop]
  refine ⟨?_, ?_, ?_⟩
  · show (insertAll [] 0 real).length = real.length
    rw [hins, List.length_zip, List.length_map, List.length_range']
    omega
  · show (setTypes _ 0 real).length = real.length + dirs.length
    rw [setTypes_length, List.length_replicate]
  · intro k hk
    constructor
    · show mapLookup (insertAll [] 0 real) (nameOf (real.get ⟨k, hk⟩)) = some k
      rw [hins]
      have hk' : k < (real.map nameOf).length := by simpa using hk
      have hlk := mapLookup_zip_range (real.map nameOf) 0 k hk' hnodup
      have hkey : (real.map nameOf).get ⟨k, hk'⟩ = nameOf (real.get ⟨k, hk⟩) := by
        simp
      rw [hkey] at hlk
      simpa using hlk
    · show (setTypes _ 0 real).get? k = some (affinityOf (real.get ⟨k, hk⟩))
      have := setTypes_get real (List.replicate (real.length + dirs.length) .CT_None) 0 k hk
        (by rw [List.length_replicate]; omega)
        (fun j hj => by
          rw [List.get?_eq_getElem?]
          simp only [List.getElem?_replicate]
          rw [if_pos (by omega)])
      simpa using this

/-- A column list with a parenthesised directive in the middle. -/
def c8Body : List Char := "(a INTEGER, UNIQUE(x, y), b TEXT)".toList

/-- C8 counterexample: for the body
`(a INTEGER, UNIQUE(x, y), b TEXT)` the real columns are `a` (position 0,
INTEGER) and `b` (position 1, TEXT), but `NewSchema` maps `b` to index 2 —
the compaction counter `j` skips only directive fragments that lack `)`,
so the closing fragment `" y)"` still inflates the index — and the type
array at the mapped index 2 holds `CT_None`, not the declared `Text`
affinity.  This refutes the claim's universal "each column name maps to
its position among real columns … and to the affinity given by the
fragment's second whitespace-delimited token". -/
theorem c8_counterexample :
    mapLookup (NewSchema c8Body).Index "b".toList = some 2 ∧
    (2 : Nat) ≠ 1 ∧
    (NewSchema c8Body).Typ.get? 2 = some .CT_None ∧
    ColumnType.CT_None ≠ ColumnType.CT_Text := by
  decide

/-- The S5 scenario body from the spec. -/
def s5Body : List Char :=
  "(_id INTEGER PRIMARY KEY, name TEXT, data BLOB, UNIQUE(_id, name))".toList

/-- Its real column fragments, as `strings.Split` produces them. -/
def s5Real : List (List Char) :=
  ["_id INTEGER PRIMARY KEY".toList, " name TEXT".toList, " data BLOB".toList]

/-- Its trailing directive fragments. -/
def s5Dirs : List (List Char) :=
  [" UNIQUE(_id".toList, " name)".toList]

/-- Closed instance for `c8_schema_trailing_directives`: the spec's S5
scenario, whose directives trail the real columns, yields exactly the
three columns `_id:Integer, name:Text, data:Blob` with index map
`{_id:0, name:1, data:2}`. -/
theorem c8_witness :
    (NewSchema s5Body).Index.length = 3 ∧
    mapLookup (NewSchema s5Body).Index "_id".toList = some 0 ∧
    mapLookup (NewSchema s5Body).Index "name".toList = some 1 ∧
    mapLookup (NewSchema s5Body).Index "data".toList = some 2 ∧
    (NewSchema s5Body).Typ.get? 0 = some .CT_Integer ∧
    (NewSchema s5Body).Typ.get? 1 = some .CT_Text ∧
    (NewSchema s5Body).Typ.get? 2 = some .CT_Blob := by
  obtain ⟨h1, h2, h3⟩ := c8_schema_trailing_directives s5Body s5Real s5Dirs
    (by decide) (by decide) (by decide) (by decide)
  obtain ⟨k0a, k0b⟩ := h3 0 (by decide)
  obtain ⟨k1a, k1b⟩ := h3 1 (by decide)
  obtain ⟨k2a, k2b⟩ := h3 2 (by decide)
  refine ⟨h1, ?_, ?_, ?_, ?_, ?_, ?_⟩
  · exact (congrArg (mapLookup (NewSchema s5Body).Index)
      (show ("_id".toList : List Char) = nameOf (s5Real.get ⟨0, by decide⟩)
        from by decide)).trans k0a
  · exact (congrArg (mapLookup (NewSchema s5Body).Index)
      (show ("name".toList : List Char) = nameOf (s5Real.get ⟨1, by decide⟩)
        from by decide)).trans k1a
  · exact (congrArg (mapLookup (NewSchema s5Body).Index)
      (show ("data".toList : List Char) = nameOf (s5Real.get ⟨2, by decide⟩)
        from by decide)).trans k2a
  · exact k0b.trans (by decide)
  · exact k1b.trans (by decide)
  · exact k2b.trans (by decide)

end SignalBack
